import Mathlib

/-!
# dynjson: the `Format` controller and the field-set validator

A shallow embedding of `src/format.go` (package `dynjson`).

Modelling conventions.

* A Go `error` is represented by its message; the nil error is `none`.
* A Go map is a partial function from keys to values (`none` = key absent), so
  equality of two maps is equality of their contents.
* A nilable Go value (an interface value, a map reference) is an `Option`.
* `reflect.Value` is `Option V`: `none` is the invalid zero `Value`.
* Ranging over a Go map visits the entries in an unspecified order; the order is
  a parameter (`RangeOrder`) of every definition that ranges over a map.
* Occurrence counters are `Nat` (the Go `int` counter cannot overflow on a slice
  that fits in memory).
* A Go string is a Lean `String`; equality is exact (case-sensitive) in both.
* `makeBuilder`, `builder.build` and `formatter.format` are declared outside
  `format.go`; the controller is parameterised by them (`Deps`). They are total
  functions: a call returns its Go result pair.
* A call of `Format` either returns or panics; the caches it leaves behind are
  part of its result in both cases (the deferred `Unlock` runs either way). The
  calls it makes are recorded, in order, next to the outcome.
* The mutex is not modelled: calls are taken one at a time.
-/

namespace Dynjson

/-! ## Go library primitives used by `format.go` -/

/-- A Go `error`, represented by its message. -/
abbrev GoError := String

/-- A Go map: a partial function from keys to values. -/
abbrev GoMap (K V : Type) := K → Option V

/-- The empty map literal `map[K]V{}`. -/
def GoMap.empty {K V : Type} : GoMap K V := fun _ => none

/-- The assignment `m[k] = v`. -/
def GoMap.set {K V : Type} [DecidableEq K] (m : GoMap K V) (k : K) (v : V) : GoMap K V :=
  fun k1 => if k1 = k then some v else m k1

/-- The index expression `m[k]` on a map whose values are nilable: the zero value
(nil) when the key is absent. -/
def GoMap.index {K X : Type} (m : GoMap K (Option X)) (k : K) : Option X :=
  match m k with
  | some v => v
  | none => none

/-- Go `strings.Join(elems, sep)`. -/
def stringsJoin (elems : List String) (sep : String) : String :=
  match elems with
  | [] => ""
  | e :: rest => rest.foldl (fun acc s => acc ++ sep ++ s) e

/-- The iteration order of a `for ... range` loop over a `map[string]int`, given
the entries of the map: some permutation of them. -/
structure RangeOrder where
  order : List (String × Nat) → List (String × Nat)
  perm : ∀ l, (order l).Perm l

/-- The iteration order that visits the entries in order of first insertion. -/
def RangeOrder.insertion : RangeOrder := ⟨fun l => l, fun _ => List.Perm.refl _⟩

/-- The iteration order that visits the entries in reverse order of insertion. -/
def RangeOrder.reversed : RangeOrder := ⟨fun l => l.reverse, fun l => List.reverse_perm l⟩

/-! ## `detectDuplicateFields` (format.go, lines 70-86) -/

/-- The statement `h[f]++` on the entries of `h` (kept in order of first insertion). -/
def incrCount (h : List (String × Nat)) (f : String) : List (String × Nat) :=
  match h with
  | [] => [(f, 1)]
  | (k, c) :: rest => if k = f then (k, c + 1) :: rest else (k, c) :: incrCount rest f

/-- The map `h` after the first loop (lines 72-75). -/
def countFields (fields : List String) : List (String × Nat) :=
  fields.foldl incrCount []

/-- The slice `e` after the second loop (lines 76-81). -/
def duplicateNames (ro : RangeOrder) (fields : List String) : List String :=
  ((ro.order (countFields fields)).filter (fun p => decide (p.2 > 1))).map Prod.fst

/-- The function `detectDuplicateFields`. -/
def detectDuplicateFields (ro : RangeOrder) (fields : List String) : Option GoError :=
  let e := duplicateNames ro fields
  if e.length > 0 then
    some ("duplicate fields detected: " ++ stringsJoin e ", ")
  else
    none

/-- The counting map after the first loop: its keys are distinct, every entry
holds the number of occurrences of its key, and every field has an entry. -/
def CountsOf (h : List (String × Nat)) (l : List String) : Prop :=
  (h.map Prod.fst).Nodup ∧ (∀ k c, (k, c) ∈ h → c = l.count k ∧ 0 < c) ∧
    (∀ k, k ∈ l → k ∈ h.map Prod.fst)

/-! ## The controller (format.go, lines 10-68) -/

/-- The functions and methods that `Format` calls and that are declared outside
`format.go`. `Ty` is `reflect.Type`, `V` the non-nil dynamic values, `B` the
non-nil `builder` values and `F` the non-nil `formatter` values. Each function
returns the Go result pair as it is, both components nilable. -/
structure Deps (Ty V B F : Type) where
  /-- The method `reflect.Value.Type` on a valid `Value`. -/
  typeOf : V → Ty
  /-- The function `makeBuilder(t)`. -/
  makeBuilder : Ty → Option B × Option GoError
  /-- The method `b.build(fields, prefix)` on a non-nil builder. -/
  build : B → List String → String → Option F × Option GoError
  /-- The method `ff.format(v)` on a non-nil formatter and a valid `Value`; the
  returned `reflect.Value` may be the zero `Value`. -/
  format : F → V → Option V × Option GoError

/-- The struct `Formatter` (the mutex apart): the two caches. -/
structure Formatter (Ty B F : Type) where
  builders : GoMap Ty (Option B)
  formatters : GoMap Ty (Option (GoMap String (Option F)))

/-- The function `NewFormatter`. -/
def NewFormatter {Ty B F : Type} : Formatter Ty B F :=
  { builders := GoMap.empty, formatters := GoMap.empty }

/-- The run-time panics that `Format` can raise. -/
inductive Panic where
  /-- The call `v.Type()` on the zero `Value` (line 40). -/
  | typeOfZeroValue
  /-- The call `b.build` on a nil `builder` (line 57). -/
  | nilBuilder
  /-- The assignment `f.formatters[t][key] = ff` into a nil map (line 61). -/
  | assignToNilMap
  /-- The call `ff.format` on a nil `formatter` (line 63). -/
  | nilFormatter
  /-- The call `v.Interface()` on the zero `Value` (line 67). -/
  | interfaceOfZeroValue
  deriving DecidableEq, Repr

/-- How a call of `Format` ends: it returns `(res, err)` or it panics. -/
inductive Outcome (V : Type) where
  | ret (res : Option V) (err : Option GoError)
  | panic (p : Panic)
  deriving DecidableEq, Repr

/-- A call made by `Format`; the calls of one run are recorded in order. -/
inductive Call (Ty V B F : Type) where
  | detectDuplicateFields (fields : List String)
  | makeBuilder (t : Ty)
  | build (b : B) (fields : List String) (pfx : String)
  | format (ff : F) (v : V)
  deriving DecidableEq, Repr

/-- What a call of `Format` leaves behind: the outcome, the caches after the
call, and the record of the calls it made. -/
structure Result (Ty V B F : Type) where
  out : Outcome V
  state : Formatter Ty B F
  calls : List (Call Ty V B F)

/-- Go `reflect.ValueOf(o)`: the zero `Value` for the nil interface value. -/
def reflectValueOf {V : Type} (o : Option V) : Option V := o

/-- The cache key of a request (line 53). -/
def cacheKey (fields : List String) : String := stringsJoin fields ","

/-- The index expression `f.formatters[t][key]` (line 54); indexing a nil map
yields nil. -/
def Formatter.lookup {Ty B F : Type} (f : Formatter Ty B F) (t : Ty) (key : String) :
    Option F :=
  match GoMap.index f.formatters t with
  | some m => GoMap.index m key
  | none => none

/-- Lines 50-51: `f.builders[t] = b` and `f.formatters[t] = map[string]formatter{}`. -/
def Formatter.cacheBuilder {Ty B F : Type} [DecidableEq Ty] (f : Formatter Ty B F) (t : Ty)
    (b : Option B) : Formatter Ty B F :=
  { builders := f.builders.set t b, formatters := f.formatters.set t (some GoMap.empty) }

/-- Line 61: `f.formatters[t][key] = ff`, on the non-nil inner map `m`. -/
def Formatter.cacheFormatter {Ty B F : Type} [DecidableEq Ty] (f : Formatter Ty B F) (t : Ty)
    (m : GoMap String (Option F)) (key : String) (ff : Option F) : Formatter Ty B F :=
  { builders := f.builders, formatters := f.formatters.set t (some (m.set key ff)) }

/-- Lines 63-67: apply the formatter `ff` to the valid value `v`. -/
def applyFormatter {Ty V B F : Type} (d : Deps Ty V B F) (ff : F) (v : V) : Outcome V :=
  match d.format ff v with
  | (_, some err) => .ret none (some err)
  | (none, none) => .panic .interfaceOfZeroValue
  | (some r, none) => .ret (some r) none

/-- Lines 53-67, with `b` the builder of line 52 and `f` the caches at that point. -/
def formatWith {Ty V B F : Type} [DecidableEq Ty] (d : Deps Ty V B F) (f : Formatter Ty B F)
    (v : V) (t : Ty) (b : Option B) (fields : List String)
    (calls : List (Call Ty V B F)) : Result Ty V B F :=
  let key := cacheKey fields
  match f.lookup t key with
  | some ff => ⟨applyFormatter d ff v, f, calls ++ [.format ff v]⟩
  | none =>
    match b with
    | none => ⟨.panic .nilBuilder, f, calls⟩
    | some b1 =>
      match d.build b1 fields "" with
      | (_, some err) => ⟨.ret none (some err), f, calls ++ [.build b1 fields ""]⟩
      | (ff, none) =>
        match GoMap.index f.formatters t with
        | none => ⟨.panic .assignToNilMap, f, calls ++ [.build b1 fields ""]⟩
        | some m =>
          let f1 := f.cacheFormatter t m key ff
          match ff with
          | none => ⟨.panic .nilFormatter, f1, calls ++ [.build b1 fields ""]⟩
          | some ff1 =>
            ⟨applyFormatter d ff1 v, f1, calls ++ [.build b1 fields "", .format ff1 v]⟩

/-- The method `Format` (lines 31-68). -/
def Format {Ty V B F : Type} [DecidableEq Ty] (d : Deps Ty V B F) (ro : RangeOrder)
    (f : Formatter Ty B F) (o : Option V) (fields : List String) : Result Ty V B F :=
  if fields.length = 0 then
    ⟨.ret o none, f, []⟩
  else
    match detectDuplicateFields ro fields with
    | some err => ⟨.ret none (some err), f, [.detectDuplicateFields fields]⟩
    | none =>
      match reflectValueOf o with
      | none => ⟨.panic .typeOfZeroValue, f, [.detectDuplicateFields fields]⟩
      | some v =>
        let t := d.typeOf v
        match GoMap.index f.builders t with
        | some b => formatWith d f v t (some b) fields [.detectDuplicateFields fields]
        | none =>
          match d.makeBuilder t with
          | (_, some err) =>
            ⟨.ret none (some err), f, [.detectDuplicateFields fields, .makeBuilder t]⟩
          | (b, none) =>
            formatWith d (f.cacheBuilder t b) v t b fields
              [.detectDuplicateFields fields, .makeBuilder t]

/-- The caches that a sequence of `Format` calls can produce from the caches `f`. -/
inductive ReachableFrom {Ty V B F : Type} [DecidableEq Ty] (d : Deps Ty V B F)
    (f : Formatter Ty B F) : Formatter Ty B F → Prop where
  | refl : ReachableFrom d f f
  | step (ro : RangeOrder) (g : Formatter Ty B F) (o : Option V) (fields : List String) :
      ReachableFrom d f g → ReachableFrom d f (Format d ro g o fields).state

/-- The caches reachable from `NewFormatter()` by `Format` calls. -/
def Reachable {Ty V B F : Type} [DecidableEq Ty] (d : Deps Ty V B F)
    (f : Formatter Ty B F) : Prop :=
  ReachableFrom d NewFormatter f

/-- The run-time type of an interface value; the nil interface value has none. -/
def ifaceType {Ty V B F : Type} (d : Deps Ty V B F) (o : Option V) : Option Ty :=
  o.map d.typeOf

/-- A call of `makeBuilder` or of `build`: a compilation. -/
def Call.isCompile {Ty V B F : Type} : Call Ty V B F → Bool
  | .makeBuilder _ => true
  | .build _ _ _ => true
  | _ => false

/-- The caches hold only what the compilers returned: a cached builder is the
one `makeBuilder` returns for its type, it comes with a non-nil inner map of
formatters, and a cached formatter is the one `build` returns for a non-empty
duplicate-free field list with this cache key. -/
def CacheSound {Ty V B F : Type} (d : Deps Ty V B F) (f : Formatter Ty B F) : Prop :=
  (∀ t b, GoMap.index f.builders t = some b → d.makeBuilder t = (some b, none)) ∧
    (∀ t b, GoMap.index f.builders t = some b → ∃ m, GoMap.index f.formatters t = some m) ∧
    (∀ t key ff, f.lookup t key = some ff →
      ∃ b fields, fields ≠ [] ∧ fields.Nodup ∧ cacheKey fields = key ∧
        d.makeBuilder t = (some b, none) ∧ d.build b fields "" = (some ff, none))

/-- A type without cached builder has no formatter entry: its inner map of
formatters is nil or holds no key at all, so that the reset
`f.formatters[t] = map[string]formatter{}` of line 51 discards nothing. -/
def ResetSafe {Ty B F : Type} (f : Formatter Ty B F) : Prop :=
  ∀ t, GoMap.index f.builders t = none →
    ∀ m, GoMap.index f.formatters t = some m → ∀ key, m key = none

/-- The error that a recorded call returned (nil when it succeeded). -/
def Call.err {Ty V B F : Type} (d : Deps Ty V B F) (ro : RangeOrder) :
    Call Ty V B F → Option GoError
  | .detectDuplicateFields fields => Dynjson.detectDuplicateFields ro fields
  | .makeBuilder t => (d.makeBuilder t).2
  | .build b fields pfx => (d.build b fields pfx).2
  | .format ff v => (d.format ff v).2

/-- The stage of a recorded call, in the order `detectDuplicateFields`,
`makeBuilder`, `build`, `format`. -/
def Call.stage {Ty V B F : Type} : Call Ty V B F → Nat
  | .detectDuplicateFields _ => 0
  | .makeBuilder _ => 1
  | .build _ _ _ => 2
  | .format _ _ => 3

/-- The two maps go together: a type has an entry in `builders` exactly when it
has a non-nil inner map in `formatters`, and no entry of `builders` is nil. -/
def BuildersPaired {Ty B F : Type} (f : Formatter Ty B F) : Prop :=
  ∀ t, (f.builders t ≠ none ↔ ∃ m, GoMap.index f.formatters t = some m) ∧
    f.builders t ≠ some none

/-- The builder that `Format` uses for the type `t` is `b`: it is cached, or no
builder is cached and `makeBuilder(t)` succeeds with the non-nil builder `b`. -/
def BuilderFor {Ty V B F : Type} (d : Deps Ty V B F) (f : Formatter Ty B F) (t : Ty)
    (b : B) : Prop :=
  GoMap.index f.builders t = some b ∨
    (GoMap.index f.builders t = none ∧ d.makeBuilder t = (some b, none))

/-- The formatter that `Format` uses for the type `t` and the field list is
`ff`: it is cached under the key of the list, or none is cached and
`b.build(fields, "")` succeeds with the non-nil formatter `ff`. -/
def FormatterFor {Ty V B F : Type} (d : Deps Ty V B F) (f : Formatter Ty B F) (t : Ty)
    (b : B) (fields : List String) (ff : F) : Prop :=
  f.lookup t (cacheKey fields) = some ff ∨
    (f.lookup t (cacheKey fields) = none ∧ d.build b fields "" = (some ff, none))

/-- The path contains no comma. -/
def commaFree (p : String) : Prop := ',' ∉ p.data

instance (p : String) : Decidable (commaFree p) := by
  unfold commaFree
  exact inferInstance

/-- The characters that `strings.Join` appends after the first element: the
separator and the element, for every further element. -/
def joinTail (sep : List Char) : List String → List Char
  | [] => []
  | s :: rest => sep ++ s.data ++ joinTail sep rest

/-- The uncached pipeline that `Format` is compared with: the type of the
value, then `makeBuilder(typeOf o)`, then `build(fields, "")`, then `format(o)`,
with the handling of errors and of nil results that `Format` gives each step. -/
def uncached {Ty V B F : Type} (d : Deps Ty V B F) (o : Option V) (fields : List String) :
    Outcome V :=
  match reflectValueOf o with
  | none => .panic .typeOfZeroValue
  | some v =>
    match d.makeBuilder (d.typeOf v) with
    | (_, some err) => .ret none (some err)
    | (none, none) => .panic .nilBuilder
    | (some b, none) =>
      match d.build b fields "" with
      | (_, some err) => .ret none (some err)
      | (none, none) => .panic .nilFormatter
      | (some ff, none) => applyFormatter d ff v

/-- The caches reachable from `NewFormatter()` by `Format` calls whose field
paths contain no comma. -/
inductive ReachableCommaFree {Ty V B F : Type} [DecidableEq Ty] (d : Deps Ty V B F) :
    Formatter Ty B F → Prop where
  | init : ReachableCommaFree d NewFormatter
  | step (ro : RangeOrder) (g : Formatter Ty B F) (o : Option V) (fields : List String) :
      ReachableCommaFree d g → (∀ p ∈ fields, commaFree p) →
      ReachableCommaFree d (Format d ro g o fields).state

/-- Every cached formatter was built by the cached builder of its type from a
non-empty field list of comma-free paths with this cache key. -/
def CommaFreeCached {Ty V B F : Type} (d : Deps Ty V B F) (f : Formatter Ty B F) : Prop :=
  ∀ t key ff, f.lookup t key = some ff →
    ∃ b fields, fields ≠ [] ∧ (∀ p ∈ fields, commaFree p) ∧ cacheKey fields = key ∧
      GoMap.index f.builders t = some b ∧ d.build b fields "" = (some ff, none)

/-- A deterministic `makeBuilder`, `build` and `format`: every type is
supported, the formatter built for a field list is the field list itself, and
formatting a value yields the field list of the formatter. -/
def echoDeps : Deps Unit (List String) Unit (List String) where
  typeOf := fun _ => ()
  makeBuilder := fun _ => (some (), none)
  build := fun _ fields _ => (some fields, none)
  format := fun ff _ => (some ff, none)

/-! ## The builder compiler, the builder and the formatter (spec §3, §4.2-§4.4)

`makeBuilder`, `builder.build` and `formatter.format` are not part of `format.go`.
The definitions of this section follow the specification. -/

/-- Modelled from the spec: the run-time types (`reflect.Type`), missing from
`format.go`. §3 and §4.2 distinguish scalars, struct types (named, their fields
are in the type table), pointers and slices (arrays are treated as slices); the
last constructor is the type of a projection, the generic ordered key/value
shape of §9, which is map-like and hence not a supported input type (§1). -/
inductive GoType where
  | scalar (name : String)
  | struct (name : String)
  | ptr (elem : GoType)
  | slice (elem : GoType)
  | projection
  deriving DecidableEq, Repr

/-- Modelled from the spec: the dynamic values (`reflect.Value`), missing from
`format.go`: scalars, struct values (fields by declared identifier), pointers
(nil or not), slices (nil or not), and projections (§4.4, §9: the newly
constructed view, an ordered list of external name and value). -/
inductive GoValue where
  | scalar (t : String) (repr : String)
  | struct (t : String) (fields : List (String × GoValue))
  | ptr (elem : GoType) (target : Option GoValue)
  | slice (elem : GoType) (elems : Option (List GoValue))
  | projection (fields : List (String × GoValue))
  deriving Repr

/-- Modelled from the spec: the run-time type of a value (`reflect.Value.Type`). -/
def GoValue.typeOf : GoValue → GoType
  | .scalar t _ => .scalar t
  | .struct t _ => .struct t
  | .ptr e _ => .ptr e
  | .slice e _ => .slice e
  | .projection _ => .projection

/-- Modelled from the spec: a declared struct field (§3, §4.2): its identifier,
its serialization alias if it declares one, whether it is exported, its type. -/
structure FieldDecl where
  name : String
  aliasName : Option String
  exported : Bool
  typ : GoType
  deriving DecidableEq, Repr

/-- Modelled from the spec: the struct type declarations of the program, by
type name. -/
abbrev TypeTable := List (String × List FieldDecl)

/-- Modelled from the spec: the declared fields of the struct type `n`. -/
def structFields (tt : TypeTable) (n : String) : List FieldDecl :=
  match tt.lookup n with
  | some fs => fs
  | none => []

/-- Modelled from the spec: the struct type behind a supported type (§4.2: a
struct type, a pointer to a struct type, a slice of a struct type); `none` for
every other type. -/
def structName : GoType → Option String
  | .struct n => some n
  | .ptr (.struct n) => some n
  | .slice (.struct n) => some n
  | _ => none

/-- Modelled from the spec: the name of a type, for error messages. -/
def GoType.name : GoType → String
  | .scalar n => n
  | .struct n => n
  | .ptr e => "*" ++ e.name
  | .slice e => "[]" ++ e.name
  | .projection => "projection"

/-- Modelled from the spec: one field of a Type Descriptor (§3): the declared
identifier, the external name (the alias if present, else the identifier), and
the field type, which is the handle to the nested descriptor, resolved on use. -/
structure FieldDesc where
  name : String
  external : String
  typ : GoType
  deriving DecidableEq, Repr

/-- Modelled from the spec: the Type Descriptor of a struct type (§4.2): its
exported fields, in declaration order. -/
def describe (decls : List FieldDecl) : List FieldDesc :=
  (decls.filter (fun fd => fd.exported)).map
    (fun fd => ⟨fd.name, match fd.aliasName with | some a => a | none => fd.name, fd.typ⟩)

/-- Modelled from the spec: the type `builder` (§3, §4.3), missing from
`format.go`: the type it was compiled for and its Type Descriptor. -/
structure builder where
  typ : GoType
  fields : List FieldDesc
  deriving DecidableEq, Repr

/-- Modelled from the spec: the function `makeBuilder` (§4.2), missing from
`format.go`; an unsupported top-level type is an error. -/
def makeBuilder (tt : TypeTable) (t : GoType) : Option builder × Option GoError :=
  match structName t with
  | some n => (some ⟨t, describe (structFields tt n)⟩, none)
  | none => (none, some ("unsupported type: " ++ t.name))

/-- Modelled from the spec: the extraction steps of §4.3. -/
inductive Extraction (P : Type) where
  | directCopy
  | fullCopy
  | recurse (nested : P)
  deriving Repr

/-- Modelled from the spec: one extraction step of a formatter (§4.3): the
declared identifier of the field, its external name, and what to do with it. -/
structure Step (P : Type) where
  name : String
  external : String
  extraction : Extraction P
  deriving Repr

/-- Modelled from the spec: the type `formatter` (§3, §4.4), whose
implementations are missing from `format.go`: the type it was compiled for and
its ordered list of extraction steps. -/
inductive formatter where
  | mk (typ : GoType) (steps : List (Step formatter))
  deriving Repr

/-- Modelled from the spec: the method `formatter.typ`. -/
def formatter.typ : formatter → GoType
  | .mk t _ => t

/-- Modelled from the spec: the steps of a formatter. -/
def formatter.steps : formatter → List (Step formatter)
  | .mk _ s => s

/-- Modelled from the spec: a field path as its dot-delimited names (§3), on
the characters of the path. -/
def splitDots : List Char → List (List Char)
  | [] => [[]]
  | c :: cs =>
    if c = '.' then [] :: splitDots cs
    else
      match splitDots cs with
      | [] => [[c]]
      | s :: ss => (c :: s) :: ss

/-- Modelled from the spec: the segments of a field path (§3). -/
def splitPath (p : String) : List String := (splitDots p.data).map String.mk

/-- Modelled from the spec: the distinct names of a list, in order of first
appearance (§4.3). -/
def distinct : List String → List String
  | [] => []
  | x :: xs => x :: (distinct xs).filter (fun y => decide (y ≠ x))

/-- Modelled from the spec: the distinct first segments of the paths, in order
of first appearance (§4.3). -/
def firstSegments (paths : List (List String)) : List String :=
  distinct (paths.filterMap List.head?)

/-- Modelled from the spec: the remaining suffix paths of the first segment
`seg` (§4.3). -/
def suffixesOf (seg : String) (paths : List (List String)) : List (List String) :=
  paths.filterMap fun p =>
    match p with
    | h :: t => if h = seg ∧ t ≠ [] then some t else none
    | [] => none

/-- Modelled from the spec: the lookup of a segment in a Type Descriptor, by
external name (§4.2). -/
def findField (fields : List FieldDesc) (seg : String) : Option FieldDesc :=
  fields.find? (fun fd => decide (fd.external = seg))

/-- Modelled from the spec: the field-not-found error (§7), naming the full path
and the type searched. -/
def fieldNotFound (path : String) (t : GoType) : GoError :=
  "field not found: " ++ path ++ " in type " ++ t.name

/-- Modelled from the spec: the first of the paths that starts with `seg`. -/
def firstPathOf (seg : String) (paths : List (List String)) : List String :=
  match paths.find? (fun p => decide (p.head? = some seg)) with
  | some p => p
  | none => [seg]

/-- Modelled from the spec: the extraction step for one first segment (§4.3);
`recur` builds the formatter of a nested type. A segment that names a struct,
pointer or slice field and has one or more suffix paths gets a
recurse-and-filter step, also when the bare name is requested next to them; a
scalar field with a suffix path is a field-not-found error (§9). -/
def buildStep (recur : GoType → List (List String) → String → Except GoError formatter)
    (b : builder) (paths : List (List String)) (pfx : String) (seg : String) :
    Except GoError (Step formatter) :=
  match findField b.fields seg with
  | none => .error (fieldNotFound (pfx ++ stringsJoin (firstPathOf seg paths) ".") b.typ)
  | some fd =>
    match suffixesOf seg paths with
    | [] =>
      if (structName fd.typ).isSome then .ok ⟨fd.name, fd.external, .fullCopy⟩
      else .ok ⟨fd.name, fd.external, .directCopy⟩
    | suf :: sufs =>
      if (structName fd.typ).isSome then
        match recur fd.typ (suf :: sufs) (pfx ++ seg ++ ".") with
        | .ok nested => .ok ⟨fd.name, fd.external, .recurse nested⟩
        | .error e => .error e
      else .error (fieldNotFound (pfx ++ seg ++ "." ++ stringsJoin suf ".") fd.typ)

/-- Modelled from the spec: the steps for the first segments, in order; the
first failure is the result. -/
def mapSteps (g : String → Except GoError (Step formatter)) :
    List String → Except GoError (List (Step formatter))
  | [] => .ok []
  | s :: rest =>
    match g s with
    | .error e => .error e
    | .ok st =>
      match mapSteps g rest with
      | .error e => .error e
      | .ok sts => .ok (st :: sts)

/-- Modelled from the spec: the formatter of the type `t` for the paths, given
as segment lists (§4.3). The first argument bounds the depth of the recursion
into nested types, by the number of segments of the longest path. -/
def buildPaths (tt : TypeTable) : Nat → GoType → List (List String) → String →
    Except GoError formatter
  | 0, _, _, _ => .error "field path too deep"
  | fuel + 1, t, paths, pfx =>
    match makeBuilder tt t with
    | (some b, none) =>
      match mapSteps (buildStep (buildPaths tt fuel) b paths pfx) (firstSegments paths) with
      | .ok steps => .ok (.mk t steps)
      | .error e => .error e
    | (_, some e) => .error e
    | (none, none) => .error ("unsupported type: " ++ t.name)

/-- Modelled from the spec: the number of segments of the longest path. -/
def maxSegments (paths : List (List String)) : Nat :=
  paths.foldr (fun p n => max p.length n) 0

/-- Modelled from the spec: the method `builder.build` (§4.3), missing from
`format.go`. -/
def builder.build (tt : TypeTable) (b : builder) (fields : List String) (pfx : String) :
    Option formatter × Option GoError :=
  match buildPaths tt (maxSegments (fields.map splitPath) + 1) b.typ
      (fields.map splitPath) pfx with
  | .ok ff => (some ff, none)
  | .error e => (none, some e)

/-- Modelled from the spec: the value of the field `n` of a struct value. -/
def lookupField (fs : List (String × GoValue)) (n : String) : Option GoValue :=
  match fs with
  | [] => none
  | (k, v) :: rest => if k = n then some v else lookupField rest n

/-- Modelled from the spec: the type-mismatch error (§7). -/
def typeMismatch (want : GoType) (got : GoType) : GoError :=
  "type mismatch: formatter for " ++ want.name ++ " applied to " ++ got.name

/-- Modelled from the spec: the element-wise application of a formatter to the
elements of a slice, in order (§4.4). -/
def mapElems (g : GoValue → Except GoError GoValue) :
    List GoValue → Except GoError (List GoValue)
  | [] => .ok []
  | e :: rest =>
    match g e with
    | .error err => .error err
    | .ok r =>
      match mapElems g rest with
      | .error err => .error err
      | .ok rs => .ok (r :: rs)

/-- Modelled from the spec: the projection of one struct value of type `elem`
(§4.4); `g` computes the selected fields. -/
def formatStruct (g : List (String × GoValue) → Except GoError (List (String × GoValue)))
    (elem : GoType) (v : GoValue) : Except GoError GoValue :=
  match v with
  | .struct n fs =>
    if GoType.struct n = elem then
      match g fs with
      | .ok kvs => .ok (.projection kvs)
      | .error e => .error e
    else .error (typeMismatch elem v.typeOf)
  | _ => .error (typeMismatch elem v.typeOf)

mutual
/-- Modelled from the spec: the selected fields of a struct value, one per
extraction step, under their external names (§4.4). -/
def formatFields (steps : List (Step formatter)) (fs : List (String × GoValue)) :
    Except GoError (List (String × GoValue)) :=
  match steps with
  | [] => .ok []
  | ⟨name, external, extraction⟩ :: rest =>
    match lookupField fs name with
    | none => .error (typeMismatch (.scalar name) .projection)
    | some fv =>
      match extract extraction fv with
      | .error e => .error e
      | .ok r =>
        match formatFields rest fs with
        | .error e => .error e
        | .ok rs => .ok ((external, r) :: rs)
/-- Modelled from the spec: one extraction step applied to a field value (§4.4). -/
def extract (ex : Extraction formatter) (fv : GoValue) : Except GoError GoValue :=
  match ex with
  | .directCopy => .ok fv
  | .fullCopy => .ok fv
  | .recurse nested => formatter.format nested fv
/-- Modelled from the spec: the method `formatter.format` (§4.4), missing from
`format.go`. -/
def formatter.format (ff : formatter) (v : GoValue) : Except GoError GoValue :=
  match ff with
  | .mk typ steps =>
    if v.typeOf = typ then
      match v with
      | .struct n _ => formatStruct (formatFields steps) (.struct n) v
      | .ptr _ none => .ok (.ptr .projection none)
      | .ptr elem (some target) =>
        match formatStruct (formatFields steps) elem target with
        | .ok r => .ok (.ptr .projection (some r))
        | .error e => .error e
      | .slice _ none => .ok (.slice .projection none)
      | .slice elem (some elems) =>
        match mapElems (formatStruct (formatFields steps) elem) elems with
        | .ok rs => .ok (.slice .projection (some rs))
        | .error e => .error e
      | _ => .error (typeMismatch typ v.typeOf)
    else .error (typeMismatch typ v.typeOf)
end

/-- Modelled from the spec: `makeBuilder`, `builder.build` and
`formatter.format` of §4.2-§4.4, which are missing from `format.go`, as the
functions that `Format` calls. -/
def specDeps (tt : TypeTable) : Deps GoType GoValue builder formatter where
  typeOf := GoValue.typeOf
  makeBuilder := makeBuilder tt
  build := fun b fields pfx => b.build tt fields pfx
  format := fun ff v =>
    match ff.format v with
    | .ok r => (some r, none)
    | .error e => (none, some e)

mutual
/-- Modelled from the spec: a value whose parts have the types that the type
declarations give them: a struct value holds a value of the declared type for
every declared field, the target of a pointer and the elements of a slice have
the element type. Every Go value is of this kind. -/
def GoValue.wellTyped (tt : TypeTable) : GoValue → Bool
  | .scalar _ _ => true
  | .struct n fs =>
    (structFields tt n).all (fun fd =>
      decide ((lookupField fs fd.name).map GoValue.typeOf = some fd.typ)) &&
      wellTypedFields tt fs
  | .ptr _ none => true
  | .ptr elem (some target) => decide (target.typeOf = elem) && target.wellTyped tt
  | .slice _ none => true
  | .slice elem (some elems) => wellTypedElems tt elem elems
  | .projection fs => wellTypedFields tt fs
/-- Modelled from the spec: every field value is well typed. -/
def wellTypedFields (tt : TypeTable) : List (String × GoValue) → Bool
  | [] => true
  | (_, v) :: rest => v.wellTyped tt && wellTypedFields tt rest
/-- Modelled from the spec: every element is well typed and of type `elem`. -/
def wellTypedElems (tt : TypeTable) (elem : GoType) : List GoValue → Bool
  | [] => true
  | v :: rest => decide (v.typeOf = elem) && v.wellTyped tt && wellTypedElems tt elem rest
end

/-- Modelled from the spec: the external names of the declared fields contain no
comma (a Go identifier has none, and a serialization alias ends at the first
comma of its tag). -/
def TypeTable.commaFree (tt : TypeTable) : Prop :=
  ∀ entry ∈ tt, ∀ fd ∈ describe entry.2, Dynjson.commaFree fd.external

instance (tt : TypeTable) : Decidable tt.commaFree := by
  unfold TypeTable.commaFree
  exact inferInstance

/-- The struct types of the examples of §8: a struct with the fields
`Name, Age, City`, and a struct `Contact` with a nested struct `Address`. -/
def exampleTypes : TypeTable :=
  [("Person", [⟨"Name", none, true, .scalar "string"⟩, ⟨"Age", none, true, .scalar "int"⟩,
      ⟨"City", none, true, .scalar "string"⟩]),
   ("Contact", [⟨"Name", none, true, .scalar "string"⟩,
      ⟨"Address", none, true, .struct "Address"⟩]),
   ("Address", [⟨"City", none, true, .scalar "string"⟩, ⟨"Zip", none, true, .scalar "string"⟩])]

/-- The value `{Name:"A", Age:5, City:"X"}` of §8. -/
def examplePerson : GoValue :=
  .struct "Person"
    [("Name", .scalar "string" "A"), ("Age", .scalar "int" "5"), ("City", .scalar "string" "X")]

/-- The value `{Name:"A", Address:{City:"X", Zip:"1"}}` of §8. -/
def exampleContact : GoValue :=
  .struct "Contact"
    [("Name", .scalar "string" "A"),
     ("Address", .struct "Address" [("City", .scalar "string" "X"), ("Zip", .scalar "string" "1")])]

/-- Another value of the struct type with the fields `Name, Age, City`. -/
def examplePerson2 : GoValue :=
  .struct "Person"
    [("Name", .scalar "string" "B"), ("Age", .scalar "int" "7"), ("City", .scalar "string" "Y")]

/-- The caches after `Format(examplePerson, ["Name"])` on a fresh `Formatter`. -/
def exampleWarm : Formatter GoType builder formatter :=
  (Format (specDeps exampleTypes) RangeOrder.insertion NewFormatter (some examplePerson)
    ["Name"]).state

/-- The caches after a further call, `Format(exampleContact, ["Address.City"])`. -/
def exampleLater : Formatter GoType builder formatter :=
  (Format (specDeps exampleTypes) RangeOrder.reversed exampleWarm (some exampleContact)
    ["Address.City"]).state

/-! ## Theorems: the field-set validator -/

theorem incrCount_keys (h : List (String × Nat)) (f : String) :
    (incrCount h f).map Prod.fst =
      if f ∈ h.map Prod.fst then h.map Prod.fst else h.map Prod.fst ++ [f] := by
  induction h with
  | nil => simp [incrCount]
  | cons p rest ih =>
    obtain ⟨k, c⟩ := p
    by_cases hk : k = f
    · subst hk
      simp [incrCount]
    · have hk1 : ¬ f = k := fun e => hk e.symm
      simp only [incrCount, hk, if_false, List.map_cons, ih, List.mem_cons, hk1, false_or]
      split <;> simp

theorem incrCount_nodup (h : List (String × Nat)) (f : String)
    (hn : (h.map Prod.fst).Nodup) : ((incrCount h f).map Prod.fst).Nodup := by
  rw [incrCount_keys]
  split
  · exact hn
  · rename_i hf
    exact List.Nodup.append hn (List.nodup_singleton f) (by simpa using hf)

theorem incrCount_mem (h : List (String × Nat)) (f : String) (k : String) (c : Nat)
    (hn : (h.map Prod.fst).Nodup) (hm : (k, c) ∈ incrCount h f) :
    (k ≠ f ∧ (k, c) ∈ h) ∨
      (k = f ∧ ((f ∉ h.map Prod.fst ∧ c = 1) ∨ ∃ c0, (f, c0) ∈ h ∧ c = c0 + 1)) := by
  induction h with
  | nil =>
    simp [incrCount] at hm
    simp [hm]
  | cons p rest ih =>
    obtain ⟨k0, c0⟩ := p
    have hn1 : (rest.map Prod.fst).Nodup := (List.nodup_cons.mp hn).2
    have hk0 : k0 ∉ rest.map Prod.fst := (List.nodup_cons.mp hn).1
    by_cases hk : k0 = f
    · subst hk
      simp only [incrCount, if_true, List.mem_cons, Prod.mk.injEq] at hm
      rcases hm with ⟨rfl, rfl⟩ | hm
      · right
        exact ⟨rfl, Or.inr ⟨c0, by simp, rfl⟩⟩
      · left
        refine ⟨?_, by simp [hm]⟩
        rintro rfl
        exact hk0 (List.mem_map_of_mem Prod.fst hm)
    · simp only [incrCount, hk, if_false, List.mem_cons, Prod.mk.injEq] at hm
      rcases hm with ⟨rfl, rfl⟩ | hm
      · left
        exact ⟨hk, by simp⟩
      · rcases ih hn1 hm with ⟨h1, h2⟩ | ⟨h1, h2⟩
        · left
          exact ⟨h1, by simp [h2]⟩
        · right
          refine ⟨h1, ?_⟩
          rcases h2 with ⟨h3, h4⟩ | ⟨c1, h3, h4⟩
          · left
            refine ⟨?_, h4⟩
            simp only [List.map_cons, List.mem_cons, not_or]
            exact ⟨fun e => hk e.symm, h3⟩
          · right
            exact ⟨c1, by simp [h3], h4⟩

theorem countsOf_incr (h : List (String × Nat)) (l : List String) (f : String)
    (hc : CountsOf h l) : CountsOf (incrCount h f) (l ++ [f]) := by
  obtain ⟨hn, hcnt, hkeys⟩ := hc
  refine ⟨incrCount_nodup h f hn, ?_, ?_⟩
  · intro k c hm
    rcases incrCount_mem h f k c hn hm with ⟨h1, h2⟩ | ⟨h1, h2⟩
    · have := hcnt k c h2
      have hne : ¬ f = k := fun e => h1 e.symm
      refine ⟨?_, this.2⟩
      rw [List.count_append, List.count_singleton, this.1]
      simp [hne]
    · subst h1
      rcases h2 with ⟨h3, h4⟩ | ⟨c1, h3, h4⟩
      · have hnl : k ∉ l := fun hl => h3 (hkeys k hl)
        subst h4
        simp [List.count_append, List.count_eq_zero_of_not_mem hnl]
      · have := hcnt k c1 h3
        subst h4
        simp [List.count_append, this.1]
  · intro k hk
    rw [incrCount_keys]
    rcases List.mem_append.mp hk with hk | hk
    · split
      · exact hkeys k hk
      · exact List.mem_append_left _ (hkeys k hk)
    · have hkf : k = f := by simpa using hk
      subst hkf
      split
      · assumption
      · simp

theorem countFields_append (l : List String) (f : String) :
    countFields (l ++ [f]) = incrCount (countFields l) f := by
  simp [countFields, List.foldl_append]

theorem countsOf_countFields (l : List String) : CountsOf (countFields l) l := by
  induction l using List.reverseRecOn with
  | nil => simp [CountsOf, countFields]
  | append_singleton l f ih =>
    rw [countFields_append]
    exact countsOf_incr _ _ _ ih

theorem mem_duplicateNames (ro : RangeOrder) (fields : List String) (x : String) :
    x ∈ duplicateNames ro fields ↔ 1 < fields.count x := by
  obtain ⟨_, hcnt, hkeys⟩ := countsOf_countFields fields
  simp only [duplicateNames, List.mem_map, List.mem_filter, decide_eq_true_eq]
  constructor
  · rintro ⟨⟨k, c⟩, ⟨hm, hc⟩, rfl⟩
    have hm1 : (k, c) ∈ countFields fields := (ro.perm _).mem_iff.mp hm
    have := hcnt k c hm1
    simp only at hc ⊢
    omega
  · intro hx
    have hmem : x ∈ fields := List.count_pos_iff.mp (by omega)
    obtain ⟨⟨k, c⟩, hm, hk⟩ := List.mem_map.mp (hkeys x hmem)
    simp only at hk
    subst hk
    have := hcnt k c hm
    exact ⟨(k, c), ⟨(ro.perm _).mem_iff.mpr hm, by simp only; omega⟩, rfl⟩

theorem nodup_duplicateNames (ro : RangeOrder) (fields : List String) :
    (duplicateNames ro fields).Nodup := by
  obtain ⟨hn, _, _⟩ := countsOf_countFields fields
  have h1 : ((ro.order (countFields fields)).map Prod.fst).Nodup :=
    ((ro.perm _).map Prod.fst).nodup_iff.mpr hn
  exact List.Nodup.sublist (List.Sublist.map Prod.fst (List.filter_sublist _)) h1

theorem duplicateNames_ne_nil_iff (ro : RangeOrder) (fields : List String) :
    duplicateNames ro fields ≠ [] ↔ ∃ x, 1 < fields.count x := by
  constructor
  · intro h
    obtain ⟨x, hx⟩ := List.exists_mem_of_ne_nil _ h
    exact ⟨x, (mem_duplicateNames ro fields x).mp hx⟩
  · rintro ⟨x, hx⟩ h
    have := (mem_duplicateNames ro fields x).mpr hx
    rw [h] at this
    exact List.not_mem_nil _ this

theorem detectDuplicateFields_of_dup (ro : RangeOrder) (fields : List String)
    (h : ∃ x, 1 < fields.count x) :
    detectDuplicateFields ro fields =
      some ("duplicate fields detected: " ++ stringsJoin (duplicateNames ro fields) ", ") := by
  have hne := (duplicateNames_ne_nil_iff ro fields).mpr h
  have hlen : (duplicateNames ro fields).length > 0 := List.length_pos.mpr hne
  simp [detectDuplicateFields, hlen]

theorem detectDuplicateFields_of_nodup (ro : RangeOrder) (fields : List String)
    (h : fields.Nodup) : detectDuplicateFields ro fields = none := by
  have hnil : duplicateNames ro fields = [] := by
    by_contra hne
    obtain ⟨x, hx⟩ := (duplicateNames_ne_nil_iff ro fields).mp hne
    have := List.nodup_iff_count_le_one.mp h x
    omega
  simp [detectDuplicateFields, hnil]

theorem detectDuplicateFields_isSome_iff (ro : RangeOrder) (fields : List String) :
    (detectDuplicateFields ro fields).isSome ↔ ∃ x, 2 ≤ fields.count x := by
  constructor
  · intro h
    by_contra hno
    have hn : fields.Nodup := by
      rw [List.nodup_iff_count_le_one]
      intro a
      by_contra hc
      exact hno ⟨a, by omega⟩
    rw [detectDuplicateFields_of_nodup ro fields hn] at h
    simp at h
  · rintro ⟨x, hx⟩
    rw [detectDuplicateFields_of_dup ro fields ⟨x, hx⟩]
    rfl

/-! ## Theorems: the cache key -/

theorem foldl_join_data (sep : String) (rest : List String) (acc : String) :
    (rest.foldl (fun acc s => acc ++ sep ++ s) acc).data =
      acc.data ++ joinTail sep.data rest := by
  induction rest generalizing acc with
  | nil => simp [joinTail]
  | cons s rest ih =>
    simp only [List.foldl_cons, ih, joinTail, String.data_append, List.append_assoc]

theorem stringsJoin_cons_data (e : String) (rest : List String) (sep : String) :
    (stringsJoin (e :: rest) sep).data = e.data ++ joinTail sep.data rest := by
  simp [stringsJoin, foldl_join_data]

theorem joinTail_head (rest : List String) :
    joinTail [','] rest = [] ∨ (joinTail [','] rest).head? = some ',' := by
  cases rest with
  | nil => exact Or.inl rfl
  | cons s rest => exact Or.inr (by simp [joinTail])

/-- Two texts that agree, each a comma-free word followed by nothing or by a
comma, have the same word and the same remainder. -/
theorem split_at_comma (a b x y : List Char) (ha : ',' ∉ a) (hb : ',' ∉ b)
    (hx : x = [] ∨ x.head? = some ',') (hy : y = [] ∨ y.head? = some ',')
    (h : a ++ x = b ++ y) : a = b ∧ x = y := by
  induction a generalizing b with
  | nil =>
    cases b with
    | nil => exact ⟨rfl, by simpa using h⟩
    | cons c b1 =>
      exfalso
      simp only [List.nil_append] at h
      subst h
      rcases hx with hx | hx
      · simp at hx
      · simp only [List.cons_append, List.head?_cons, Option.some.injEq] at hx
        subst hx
        exact hb (List.mem_cons_self _ _)
  | cons c a1 ih =>
    cases b with
    | nil =>
      exfalso
      simp only [List.nil_append] at h
      subst h
      rcases hy with hy | hy
      · simp at hy
      · simp only [List.cons_append, List.head?_cons, Option.some.injEq] at hy
        subst hy
        exact ha (List.mem_cons_self _ _)
    | cons c1 b1 =>
      simp only [List.cons_append, List.cons.injEq] at h
      obtain ⟨hc, ht⟩ := h
      subst hc
      have ha1 : ',' ∉ a1 := fun hm => ha (List.mem_cons_of_mem _ hm)
      have hb1 : ',' ∉ b1 := fun hm => hb (List.mem_cons_of_mem _ hm)
      obtain ⟨h1, h2⟩ := ih b1 ha1 hb1 ht
      exact ⟨by rw [h1], h2⟩

theorem joinTail_injective (l1 l2 : List String) (h1 : ∀ p ∈ l1, commaFree p)
    (h2 : ∀ p ∈ l2, commaFree p) (h : joinTail [','] l1 = joinTail [','] l2) : l1 = l2 := by
  induction l1 generalizing l2 with
  | nil =>
    cases l2 with
    | nil => rfl
    | cons s r => simp [joinTail] at h
  | cons s1 r1 ih =>
    cases l2 with
    | nil => simp [joinTail] at h
    | cons s2 r2 =>
      simp only [joinTail, List.singleton_append, List.cons_append, List.cons.injEq,
        true_and] at h
      obtain ⟨hs, hr⟩ := split_at_comma s1.data s2.data _ _ (h1 s1 (List.mem_cons_self _ _))
        (h2 s2 (List.mem_cons_self _ _)) (joinTail_head r1) (joinTail_head r2) h
      have hr1 := ih r2 (fun p hp => h1 p (List.mem_cons_of_mem _ hp))
        (fun p hp => h2 p (List.mem_cons_of_mem _ hp)) hr
      rw [String.ext hs, hr1]

/-- The cache key determines a non-empty field list of comma-free paths. -/
theorem cacheKey_injective (l1 l2 : List String) (h1 : ∀ p ∈ l1, commaFree p)
    (h2 : ∀ p ∈ l2, commaFree p) (hne1 : l1 ≠ []) (hne2 : l2 ≠ [])
    (h : cacheKey l1 = cacheKey l2) : l1 = l2 := by
  cases l1 with
  | nil => exact absurd rfl hne1
  | cons e1 r1 =>
    cases l2 with
    | nil => exact absurd rfl hne2
    | cons e2 r2 =>
      have hd : (cacheKey (e1 :: r1)).data = (cacheKey (e2 :: r2)).data := by rw [h]
      simp only [cacheKey, stringsJoin_cons_data] at hd
      obtain ⟨hs, hr⟩ := split_at_comma e1.data e2.data _ _ (h1 e1 (List.mem_cons_self _ _))
        (h2 e2 (List.mem_cons_self _ _)) (joinTail_head r1) (joinTail_head r2) hd
      have hr1 := joinTail_injective r1 r2 (fun p hp => h1 p (List.mem_cons_of_mem _ hp))
        (fun p hp => h2 p (List.mem_cons_of_mem _ hp)) hr
      rw [String.ext hs, hr1]

/-! ## Theorems: the controller -/

theorem applyFormatter_error {Ty V B F : Type} (d : Deps Ty V B F) (ff : F) (v : V)
    (r : Option V) (e : GoError) (h : applyFormatter d ff v = .ret r (some e)) :
    r = none ∧ (d.format ff v).2 = some e := by
  unfold applyFormatter at h
  split at h
  · rename_i x err heq
    simp only [Outcome.ret.injEq, Option.some.injEq] at h
    exact ⟨h.1.symm, by rw [heq, ← h.2]⟩
  · simp at h
  · simp at h

theorem applyFormatter_success {Ty V B F : Type} (d : Deps Ty V B F) (ff : F) (v : V)
    (r : Option V) (h : applyFormatter d ff v = .ret r none) :
    ∃ x, r = some x ∧ d.format ff v = (some x, none) := by
  unfold applyFormatter at h
  split at h
  · simp at h
  · simp at h
  · rename_i x heq
    simp only [Outcome.ret.injEq, and_true] at h
    exact ⟨x, h.symm, heq⟩

theorem lookup_cacheBuilder_same {Ty B F : Type} [DecidableEq Ty] (f : Formatter Ty B F)
    (t : Ty) (b : Option B) (key : String) : (f.cacheBuilder t b).lookup t key = none := by
  simp [Formatter.lookup, Formatter.cacheBuilder, GoMap.index, GoMap.set, GoMap.empty]

theorem index_cacheBuilder_formatters {Ty B F : Type} [DecidableEq Ty] (f : Formatter Ty B F)
    (t : Ty) (b : Option B) :
    GoMap.index (f.cacheBuilder t b).formatters t = some GoMap.empty := by
  simp [Formatter.cacheBuilder, GoMap.index, GoMap.set]

theorem lookup_cacheFormatter_same {Ty B F : Type} [DecidableEq Ty] (f : Formatter Ty B F)
    (t : Ty) (m : GoMap String (Option F)) (key : String) (ff : Option F) :
    (f.cacheFormatter t m key ff).lookup t key = ff := by
  simp [Formatter.lookup, Formatter.cacheFormatter, GoMap.index, GoMap.set]

/-- What `Format` does on a non-nil value and a non-empty duplicate-free field list. -/
theorem format_of_valid {Ty V B F : Type} [DecidableEq Ty] (d : Deps Ty V B F)
    (ro : RangeOrder) (f : Formatter Ty B F) (v : V) (fields : List String)
    (hne : fields ≠ []) (hd : detectDuplicateFields ro fields = none) :
    Format d ro f (some v) fields =
      match GoMap.index f.builders (d.typeOf v) with
      | some b => formatWith d f v (d.typeOf v) (some b) fields [.detectDuplicateFields fields]
      | none =>
        match d.makeBuilder (d.typeOf v) with
        | (_, some err) =>
          ⟨.ret none (some err), f,
            [.detectDuplicateFields fields, .makeBuilder (d.typeOf v)]⟩
        | (b, none) =>
          formatWith d (f.cacheBuilder (d.typeOf v) b) v (d.typeOf v) b fields
            [.detectDuplicateFields fields, .makeBuilder (d.typeOf v)] := by
  have hlen : fields.length ≠ 0 := fun h0 => hne (List.length_eq_zero.mp h0)
  simp [Format, hlen, hd, reflectValueOf]

/-- The ways in which `formatWith` returns an error. -/
theorem formatWith_error {Ty V B F : Type} [DecidableEq Ty] (d : Deps Ty V B F)
    (f : Formatter Ty B F) (v : V) (t : Ty) (b : Option B) (fields : List String)
    (calls : List (Call Ty V B F)) (r : Option V) (e : GoError)
    (h : (formatWith d f v t b fields calls).out = .ret r (some e)) :
    r = none ∧
      (((formatWith d f v t b fields calls).state = f ∧
          ((∃ ff, f.lookup t (cacheKey fields) = some ff ∧ (d.format ff v).2 = some e) ∨
            (∃ b1, b = some b1 ∧ f.lookup t (cacheKey fields) = none ∧
              (d.build b1 fields "").2 = some e))) ∨
        (∃ b1 m ff, b = some b1 ∧ f.lookup t (cacheKey fields) = none ∧
          GoMap.index f.formatters t = some m ∧ d.build b1 fields "" = (some ff, none) ∧
          (formatWith d f v t b fields calls).state =
            f.cacheFormatter t m (cacheKey fields) (some ff) ∧
          (d.format ff v).2 = some e)) := by
  cases hl : f.lookup t (cacheKey fields) with
  | some ff =>
    simp only [formatWith, hl] at h
    obtain ⟨h1, h2⟩ := applyFormatter_error d ff v r e h
    simp [formatWith, hl, h1, h2]
  | none =>
    cases b with
    | none => simp [formatWith, hl] at h
    | some b1 =>
      rcases hb : d.build b1 fields "" with ⟨x, _ | err⟩
      · cases hm : GoMap.index f.formatters t with
        | none => simp [formatWith, hl, hb, hm] at h
        | some m =>
          cases x with
          | none => simp [formatWith, hl, hb, hm] at h
          | some ff1 =>
            simp only [formatWith, hl, hb, hm] at h
            obtain ⟨h1, h2⟩ := applyFormatter_error d ff1 v r e h
            simp [formatWith, hl, hb, hm, h1, h2]
      · simp only [formatWith, hl, hb, Outcome.ret.injEq, Option.some.injEq] at h
        simp [formatWith, hl, hb, h.1.symm, h.2]

theorem formatWith_state_builders {Ty V B F : Type} [DecidableEq Ty] (d : Deps Ty V B F)
    (f : Formatter Ty B F) (v : V) (t : Ty) (b : Option B) (fields : List String)
    (calls : List (Call Ty V B F)) :
    (formatWith d f v t b fields calls).state.builders = f.builders := by
  unfold formatWith
  simp only
  repeat' split
  all_goals rfl

/-- The caches after `formatWith`: unchanged, or one formatter entry added. -/
theorem formatWith_state_cases {Ty V B F : Type} [DecidableEq Ty] (d : Deps Ty V B F)
    (f : Formatter Ty B F) (v : V) (t : Ty) (b : Option B) (fields : List String)
    (calls : List (Call Ty V B F)) :
    (formatWith d f v t b fields calls).state = f ∨
      ∃ b1 m x, b = some b1 ∧ f.lookup t (cacheKey fields) = none ∧
        GoMap.index f.formatters t = some m ∧ d.build b1 fields "" = (x, none) ∧
        (formatWith d f v t b fields calls).state = f.cacheFormatter t m (cacheKey fields) x := by
  cases hl : f.lookup t (cacheKey fields) with
  | some ff => simp [formatWith, hl]
  | none =>
    cases b with
    | none => simp [formatWith, hl]
    | some b1 =>
      rcases hb : d.build b1 fields "" with ⟨x, _ | err⟩
      · cases hm : GoMap.index f.formatters t with
        | none => simp [formatWith, hl, hb, hm]
        | some m =>
          right
          refine ⟨b1, m, x, rfl, rfl, rfl, hb, ?_⟩
          cases x <;> simp [formatWith, hl, hb, hm]
      · simp [formatWith, hl, hb]

/-- The caches after `Format`: unchanged, or a formatter entry added under a
cached builder, or a builder added with an empty inner map and possibly one
formatter entry in it. -/
theorem format_state_cases {Ty V B F : Type} [DecidableEq Ty] (d : Deps Ty V B F)
    (ro : RangeOrder) (f : Formatter Ty B F) (o : Option V) (fields : List String) :
    (Format d ro f o fields).state = f ∨
      ∃ v, o = some v ∧ fields ≠ [] ∧ detectDuplicateFields ro fields = none ∧
        ((∃ b m x, GoMap.index f.builders (d.typeOf v) = some b ∧
            f.lookup (d.typeOf v) (cacheKey fields) = none ∧
            GoMap.index f.formatters (d.typeOf v) = some m ∧
            d.build b fields "" = (x, none) ∧
            (Format d ro f o fields).state =
              f.cacheFormatter (d.typeOf v) m (cacheKey fields) x) ∨
          (∃ b, GoMap.index f.builders (d.typeOf v) = none ∧
            d.makeBuilder (d.typeOf v) = (b, none) ∧
            ((Format d ro f o fields).state = f.cacheBuilder (d.typeOf v) b ∨
              ∃ b1 x, b = some b1 ∧ d.build b1 fields "" = (x, none) ∧
                (Format d ro f o fields).state =
                  (f.cacheBuilder (d.typeOf v) b).cacheFormatter (d.typeOf v) GoMap.empty
                    (cacheKey fields) x))) := by
  by_cases hne : fields = []
  · subst hne
    simp [Format]
  have hlen : fields.length ≠ 0 := fun h0 => hne (List.length_eq_zero.mp h0)
  cases hd : detectDuplicateFields ro fields with
  | some err => simp [Format, hlen, hd]
  | none =>
    cases o with
    | none => simp [Format, hlen, hd, reflectValueOf]
    | some v =>
      have hF := format_of_valid d ro f v fields hne hd
      cases hb : GoMap.index f.builders (d.typeOf v) with
      | some b =>
        simp only [hb] at hF
        rw [hF]
        rcases formatWith_state_cases d f v (d.typeOf v) (some b) fields
          [.detectDuplicateFields fields] with h | ⟨b1, m, x, h1, h2, h3, h4, h5⟩
        · exact Or.inl h
        · simp only [Option.some.injEq] at h1
          subst h1
          exact Or.inr ⟨v, rfl, hne, rfl, Or.inl ⟨b, m, x, hb, h2, h3, h4, h5⟩⟩
      | none =>
        rcases hm : d.makeBuilder (d.typeOf v) with ⟨b, _ | err⟩
        · simp only [hb, hm] at hF
          rw [hF]
          refine Or.inr ⟨v, rfl, hne, rfl, Or.inr ⟨b, hb, hm, ?_⟩⟩
          rcases formatWith_state_cases d (f.cacheBuilder (d.typeOf v) b) v (d.typeOf v) b
            fields [.detectDuplicateFields fields, .makeBuilder (d.typeOf v)]
            with h | ⟨b1, m, x, h1, _, h3, h4, h5⟩
          · exact Or.inl h
          · rw [index_cacheBuilder_formatters] at h3
            simp only [Option.some.injEq] at h3
            subst h3
            exact Or.inr ⟨b1, x, h1, h4, h5⟩
        · simp only [hb, hm] at hF
          rw [hF]
          exact Or.inl rfl

theorem lookup_cacheFormatter_other {Ty B F : Type} [DecidableEq Ty] (f : Formatter Ty B F)
    (t1 : Ty) (m : GoMap String (Option F)) (key1 : String) (x : Option F) (t : Ty)
    (key : String) (hm : GoMap.index f.formatters t1 = some m)
    (hne : t ≠ t1 ∨ key ≠ key1) :
    (f.cacheFormatter t1 m key1 x).lookup t key = f.lookup t key := by
  by_cases ht : t = t1
  · subst ht
    have hk : key ≠ key1 := by
      rcases hne with h | h
      · exact absurd rfl h
      · exact h
    simp [Formatter.lookup, Formatter.cacheFormatter, GoMap.index, GoMap.set, hk] at hm ⊢
    rw [hm]
  · simp [Formatter.lookup, Formatter.cacheFormatter, GoMap.index, GoMap.set, ht]

theorem lookup_cacheBuilder_other {Ty B F : Type} [DecidableEq Ty] (f : Formatter Ty B F)
    (t1 : Ty) (b : Option B) (t : Ty) (key : String) (hne : t ≠ t1) :
    (f.cacheBuilder t1 b).lookup t key = f.lookup t key := by
  simp [Formatter.lookup, Formatter.cacheBuilder, GoMap.index, GoMap.set, hne]

theorem index_cacheBuilder_other {Ty B F : Type} [DecidableEq Ty] (f : Formatter Ty B F)
    (t1 : Ty) (b : Option B) (t : Ty) (hne : t ≠ t1) :
    GoMap.index (f.cacheBuilder t1 b).builders t = GoMap.index f.builders t := by
  simp [Formatter.cacheBuilder, GoMap.index, GoMap.set, hne]

theorem index_cacheBuilder_same {Ty B F : Type} [DecidableEq Ty] (f : Formatter Ty B F)
    (t : Ty) (b : Option B) : GoMap.index (f.cacheBuilder t b).builders t = b := by
  simp [Formatter.cacheBuilder, GoMap.index, GoMap.set]

/-- A cached builder and a cached formatter survive every call of `Format`. -/
theorem format_preserves_cached {Ty V B F : Type} [DecidableEq Ty] (d : Deps Ty V B F)
    (ro : RangeOrder) (f : Formatter Ty B F) (o : Option V) (fields : List String) (t : Ty)
    (key : String) (b : B) (ff : F) (hb : GoMap.index f.builders t = some b)
    (hf : f.lookup t key = some ff) :
    GoMap.index (Format d ro f o fields).state.builders t = some b ∧
      (Format d ro f o fields).state.lookup t key = some ff := by
  rcases format_state_cases d ro f o fields with h | ⟨v, _, _, _, h⟩
  · rw [h]
    exact ⟨hb, hf⟩
  · rcases h with ⟨b1, m, x, _, h2, h3, _, h5⟩ | ⟨b1, h1, _, h3⟩
    · rw [h5]
      refine ⟨hb, ?_⟩
      rw [lookup_cacheFormatter_other f _ m _ x t key h3]
      · exact hf
      · by_contra hc
        simp only [not_or, not_not] at hc
        rw [hc.1, hc.2, h2] at hf
        simp at hf
    · have hne : t ≠ d.typeOf v := by
        intro hc
        rw [hc, h1] at hb
        simp at hb
      rcases h3 with h3 | ⟨b2, x, _, _, h3⟩
      · rw [h3, index_cacheBuilder_other _ _ _ _ hne, lookup_cacheBuilder_other _ _ _ _ _ hne]
        exact ⟨hb, hf⟩
      · rw [h3]
        refine ⟨?_, ?_⟩
        · show GoMap.index (f.cacheBuilder (d.typeOf v) b1).builders t = some b
          rw [index_cacheBuilder_other _ _ _ _ hne]
          exact hb
        · rw [lookup_cacheFormatter_other _ _ GoMap.empty _ x t key
            (index_cacheBuilder_formatters f _ b1) (Or.inl hne),
            lookup_cacheBuilder_other _ _ _ _ _ hne]
          exact hf

theorem reachableFrom_preserves_cached {Ty V B F : Type} [DecidableEq Ty] (d : Deps Ty V B F)
    (f g : Formatter Ty B F) (hr : ReachableFrom d f g) (t : Ty) (key : String) (b : B)
    (ff : F) (hb : GoMap.index f.builders t = some b) (hf : f.lookup t key = some ff) :
    GoMap.index g.builders t = some b ∧ g.lookup t key = some ff := by
  induction hr with
  | refl => exact ⟨hb, hf⟩
  | step ro g o fields _ ih => exact format_preserves_cached d ro g o fields t key b ff ih.1 ih.2

/-- A successful `formatWith` leaves the formatter it applied in the cache. -/
theorem formatWith_success {Ty V B F : Type} [DecidableEq Ty] (d : Deps Ty V B F)
    (f : Formatter Ty B F) (v : V) (t : Ty) (b : Option B) (fields : List String)
    (calls : List (Call Ty V B F)) (r : Option V)
    (h : (formatWith d f v t b fields calls).out = .ret r none) :
    ∃ ff, (formatWith d f v t b fields calls).state.lookup t (cacheKey fields) = some ff ∧
      (formatWith d f v t b fields calls).out = applyFormatter d ff v ∧
      (f.lookup t (cacheKey fields) = some ff ∨ ∃ b1, b = some b1) := by
  cases hl : f.lookup t (cacheKey fields) with
  | some ff => exact ⟨ff, by simp [formatWith, hl]⟩
  | none =>
    cases b with
    | none => simp [formatWith, hl] at h
    | some b1 =>
      rcases hb : d.build b1 fields "" with ⟨x, _ | err⟩
      · cases hm : GoMap.index f.formatters t with
        | none => simp [formatWith, hl, hb, hm] at h
        | some m =>
          cases x with
          | none => simp [formatWith, hl, hb, hm] at h
          | some ff1 =>
            exact ⟨ff1, by simp [formatWith, hl, hb, hm, lookup_cacheFormatter_same]⟩
      · simp [formatWith, hl, hb] at h

/-- A successful `Format` on a non-empty field list: the list is duplicate-free,
the value is not nil, and after the call the builder of its type and the
formatter that was applied are cached. -/
theorem format_success_cached {Ty V B F : Type} [DecidableEq Ty] (d : Deps Ty V B F)
    (ro : RangeOrder) (f : Formatter Ty B F) (o : Option V) (fields : List String)
    (r : Option V) (hne : fields ≠ []) (h : (Format d ro f o fields).out = .ret r none) :
    ∃ v b ff, o = some v ∧ fields.Nodup ∧
      GoMap.index (Format d ro f o fields).state.builders (d.typeOf v) = some b ∧
      (Format d ro f o fields).state.lookup (d.typeOf v) (cacheKey fields) = some ff ∧
      (Format d ro f o fields).out = applyFormatter d ff v := by
  have hlen : fields.length ≠ 0 := fun h0 => hne (List.length_eq_zero.mp h0)
  cases hd : detectDuplicateFields ro fields with
  | some err => simp [Format, hlen, hd] at h
  | none =>
    have hnd : fields.Nodup := by
      rw [List.nodup_iff_count_le_one]
      intro a
      by_contra hc
      have := (detectDuplicateFields_isSome_iff ro fields).mpr ⟨a, by omega⟩
      rw [hd] at this
      simp at this
    cases o with
    | none => simp [Format, hlen, hd, reflectValueOf] at h
    | some v =>
      have hF := format_of_valid d ro f v fields hne hd
      cases hb : GoMap.index f.builders (d.typeOf v) with
      | some b =>
        simp only [hb] at hF
        rw [hF] at h ⊢
        obtain ⟨ff, h1, h2, _⟩ := formatWith_success d f v _ _ fields _ r h
        refine ⟨v, b, ff, rfl, hnd, ?_, h1, h2⟩
        rw [formatWith_state_builders]
        exact hb
      | none =>
        rcases hm : d.makeBuilder (d.typeOf v) with ⟨b, _ | err⟩
        · simp only [hb, hm] at hF
          rw [hF] at h ⊢
          obtain ⟨ff, h1, h2, h3⟩ := formatWith_success d _ v _ _ fields _ r h
          rcases h3 with h3 | ⟨b1, h3⟩
          · rw [lookup_cacheBuilder_same] at h3
            simp at h3
          · subst h3
            refine ⟨v, b1, ff, rfl, hnd, ?_, h1, h2⟩
            rw [formatWith_state_builders, index_cacheBuilder_same]
        · simp only [hb, hm] at hF
          rw [hF] at h
          simp at h

/-- With the builder and the formatter cached, `Format` only validates the field
list and applies the cached formatter. -/
theorem format_cache_hit {Ty V B F : Type} [DecidableEq Ty] (d : Deps Ty V B F)
    (ro : RangeOrder) (f : Formatter Ty B F) (v : V) (fields : List String) (b : B) (ff : F)
    (hne : fields ≠ []) (hnd : fields.Nodup)
    (hb : GoMap.index f.builders (d.typeOf v) = some b)
    (hf : f.lookup (d.typeOf v) (cacheKey fields) = some ff) :
    Format d ro f (some v) fields =
      ⟨applyFormatter d ff v, f, [.detectDuplicateFields fields, .format ff v]⟩ := by
  rw [format_of_valid d ro f v fields hne (detectDuplicateFields_of_nodup ro fields hnd)]
  simp [hb, formatWith, hf]

theorem nodup_of_detect_none (ro : RangeOrder) (fields : List String)
    (hd : detectDuplicateFields ro fields = none) : fields.Nodup := by
  rw [List.nodup_iff_count_le_one]
  intro a
  by_contra hc
  have := (detectDuplicateFields_isSome_iff ro fields).mpr ⟨a, by omega⟩
  rw [hd] at this
  simp at this

theorem cacheSound_new {Ty V B F : Type} (d : Deps Ty V B F) :
    CacheSound d (NewFormatter : Formatter Ty B F) := by
  refine ⟨?_, ?_, ?_⟩ <;> intros <;>
    simp_all [NewFormatter, GoMap.index, GoMap.empty, Formatter.lookup]

theorem cacheSound_cacheBuilder {Ty V B F : Type} [DecidableEq Ty] (d : Deps Ty V B F)
    (f : Formatter Ty B F) (t : Ty) (b : Option B) (hs : CacheSound d f)
    (hm : d.makeBuilder t = (b, none)) : CacheSound d (f.cacheBuilder t b) := by
  obtain ⟨h1, h2, h3⟩ := hs
  refine ⟨?_, ?_, ?_⟩
  · intro t1 b1 hb
    by_cases ht : t1 = t
    · subst ht
      rw [index_cacheBuilder_same] at hb
      rw [hm, hb]
    · rw [index_cacheBuilder_other _ _ _ _ ht] at hb
      exact h1 t1 b1 hb
  · intro t1 b1 hb
    by_cases ht : t1 = t
    · subst ht
      exact ⟨_, index_cacheBuilder_formatters f t1 b⟩
    · rw [index_cacheBuilder_other _ _ _ _ ht] at hb
      obtain ⟨m, hm1⟩ := h2 t1 b1 hb
      exact ⟨m, by simpa [Formatter.cacheBuilder, GoMap.index, GoMap.set, ht] using hm1⟩
  · intro t1 key ff hl
    by_cases ht : t1 = t
    · subst ht
      rw [lookup_cacheBuilder_same] at hl
      simp at hl
    · rw [lookup_cacheBuilder_other _ _ _ _ _ ht] at hl
      exact h3 t1 key ff hl

theorem cacheSound_cacheFormatter {Ty V B F : Type} [DecidableEq Ty] (d : Deps Ty V B F)
    (f : Formatter Ty B F) (t : Ty) (m : GoMap String (Option F)) (fields : List String)
    (x : Option F) (b : B) (hs : CacheSound d f) (hne : fields ≠ []) (hnd : fields.Nodup)
    (hb : GoMap.index f.builders t = some b) (hm : GoMap.index f.formatters t = some m)
    (hx : d.build b fields "" = (x, none)) :
    CacheSound d (f.cacheFormatter t m (cacheKey fields) x) := by
  obtain ⟨h1, h2, h3⟩ := hs
  refine ⟨h1, ?_, ?_⟩
  · intro t1 b1 hb1
    by_cases ht : t1 = t
    · subst ht
      exact ⟨m.set (cacheKey fields) x,
        by simp [Formatter.cacheFormatter, GoMap.index, GoMap.set]⟩
    · obtain ⟨m1, hm1⟩ := h2 t1 b1 hb1
      exact ⟨m1, by simpa [Formatter.cacheFormatter, GoMap.index, GoMap.set, ht] using hm1⟩
  · intro t1 key ff hl
    by_cases hk : t1 = t ∧ key = cacheKey fields
    · obtain ⟨rfl, rfl⟩ := hk
      rw [lookup_cacheFormatter_same] at hl
      subst hl
      exact ⟨b, fields, hne, hnd, rfl, h1 t1 b hb, hx⟩
    · rw [lookup_cacheFormatter_other f t m _ x t1 key hm (by tauto)] at hl
      exact h3 t1 key ff hl

theorem cacheSound_format {Ty V B F : Type} [DecidableEq Ty] (d : Deps Ty V B F)
    (ro : RangeOrder) (f : Formatter Ty B F) (o : Option V) (fields : List String)
    (hs : CacheSound d f) : CacheSound d (Format d ro f o fields).state := by
  rcases format_state_cases d ro f o fields with h | ⟨v, _, hne, hd, h⟩
  · rw [h]
    exact hs
  · have hnd := nodup_of_detect_none ro fields hd
    rcases h with ⟨b, m, x, h1, _, h3, h4, h5⟩ | ⟨b, _, h2, h3⟩
    · rw [h5]
      exact cacheSound_cacheFormatter d f _ m fields x b hs hne hnd h1 h3 h4
    · have hs1 := cacheSound_cacheBuilder d f (d.typeOf v) b hs h2
      rcases h3 with h3 | ⟨b1, x, h4, h5, h6⟩
      · rw [h3]
        exact hs1
      · rw [h6]
        subst h4
        exact cacheSound_cacheFormatter d _ _ GoMap.empty fields x b1 hs1 hne hnd
          (index_cacheBuilder_same f _ _) (index_cacheBuilder_formatters f _ _) h5

theorem cacheSound_reachableFrom {Ty V B F : Type} [DecidableEq Ty] (d : Deps Ty V B F)
    (f g : Formatter Ty B F) (hr : ReachableFrom d f g) (hs : CacheSound d f) :
    CacheSound d g := by
  induction hr with
  | refl => exact hs
  | step ro g o fields _ ih => exact cacheSound_format d ro g o fields ih

theorem cacheSound_reachable {Ty V B F : Type} [DecidableEq Ty] (d : Deps Ty V B F)
    (f : Formatter Ty B F) (hr : Reachable d f) : CacheSound d f :=
  cacheSound_reachableFrom d NewFormatter f hr (cacheSound_new d)

/-- The calls that `formatWith` adds to the record: `build` and `format` only. -/
theorem formatWith_calls {Ty V B F : Type} [DecidableEq Ty] (d : Deps Ty V B F)
    (f : Formatter Ty B F) (v : V) (t : Ty) (b : Option B) (fields : List String)
    (calls : List (Call Ty V B F)) :
    ∃ rest, (formatWith d f v t b fields calls).calls = calls ++ rest ∧
      ∀ c ∈ rest, (∃ b1, c = .build b1 fields "") ∨ (∃ ff, c = .format ff v) := by
  cases hl : f.lookup t (cacheKey fields) with
  | some ff => exact ⟨[.format ff v], by simp [formatWith, hl], by simp⟩
  | none =>
    cases b with
    | none => exact ⟨[], by simp [formatWith, hl], by simp⟩
    | some b1 =>
      rcases hb : d.build b1 fields "" with ⟨x, _ | err⟩
      · cases hm : GoMap.index f.formatters t with
        | none => exact ⟨[.build b1 fields ""], by simp [formatWith, hl, hb, hm], by simp⟩
        | some m =>
          cases x with
          | none => exact ⟨[.build b1 fields ""], by simp [formatWith, hl, hb, hm], by simp⟩
          | some ff1 =>
            exact ⟨[.build b1 fields "", .format ff1 v], by simp [formatWith, hl, hb, hm],
              by simp⟩
      · exact ⟨[.build b1 fields ""], by simp [formatWith, hl, hb], by simp⟩

/-- `Format` calls `makeBuilder` only on a field list that passed validation and
for a type without cached builder. -/
theorem makeBuilder_called {Ty V B F : Type} [DecidableEq Ty] (d : Deps Ty V B F)
    (ro : RangeOrder) (f : Formatter Ty B F) (v : V) (fields : List String) (t : Ty)
    (h : Call.makeBuilder t ∈ (Format d ro f (some v) fields).calls) :
    t = d.typeOf v ∧ fields ≠ [] ∧ fields.Nodup ∧
      GoMap.index f.builders (d.typeOf v) = none := by
  by_cases hne : fields = []
  · subst hne
    simp [Format] at h
  have hlen : fields.length ≠ 0 := fun h0 => hne (List.length_eq_zero.mp h0)
  cases hd : detectDuplicateFields ro fields with
  | some err => simp [Format, hlen, hd] at h
  | none =>
    have hnd := nodup_of_detect_none ro fields hd
    rw [format_of_valid d ro f v fields hne hd] at h
    cases hb : GoMap.index f.builders (d.typeOf v) with
    | some b =>
      simp only [hb] at h
      obtain ⟨rest, h1, h2⟩ := formatWith_calls d f v (d.typeOf v) (some b) fields
        [.detectDuplicateFields fields]
      rw [h1] at h
      rcases List.mem_append.mp h with h3 | h3
      · simp at h3
      · rcases h2 _ h3 with ⟨b1, h4⟩ | ⟨ff, h4⟩ <;> simp at h4
    | none =>
      refine ⟨?_, hne, hnd, rfl⟩
      rcases hm : d.makeBuilder (d.typeOf v) with ⟨b, _ | err⟩
      · simp only [hb, hm] at h
        obtain ⟨rest, h1, h2⟩ := formatWith_calls d (f.cacheBuilder (d.typeOf v) b) v
          (d.typeOf v) b fields [.detectDuplicateFields fields, .makeBuilder (d.typeOf v)]
        rw [h1] at h
        rcases List.mem_append.mp h with h3 | h3
        · simpa using h3
        · rcases h2 _ h3 with ⟨b1, h4⟩ | ⟨ff, h4⟩ <;> simp at h4
      · simp only [hb, hm] at h
        simpa using h

/-- A type whose `makeBuilder` fails stays without cached builder, and its inner
map of formatters stays as it is, through every call of `Format`. -/
theorem format_preserves_no_builder {Ty V B F : Type} [DecidableEq Ty] (d : Deps Ty V B F)
    (ro : RangeOrder) (f : Formatter Ty B F) (o : Option V) (fields : List String) (t : Ty)
    (x : Option B) (e : GoError) (hb : GoMap.index f.builders t = none)
    (he : d.makeBuilder t = (x, some e)) :
    (Format d ro f o fields).state.builders t = f.builders t ∧
      (Format d ro f o fields).state.formatters t = f.formatters t := by
  rcases format_state_cases d ro f o fields with h | ⟨v, _, _, _, h⟩
  · rw [h]
    exact ⟨rfl, rfl⟩
  · rcases h with ⟨b1, m, y, h1, _, _, _, h5⟩ | ⟨b1, _, h2, h3⟩
    · have hne : t ≠ d.typeOf v := by
        intro hc
        rw [hc, h1] at hb
        simp at hb
      rw [h5]
      simp [Formatter.cacheFormatter, GoMap.set, hne]
    · have hne : t ≠ d.typeOf v := by
        intro hc
        rw [hc, h2] at he
        simp at he
      rcases h3 with h3 | ⟨b2, y, _, _, h3⟩
      · rw [h3]
        simp [Formatter.cacheBuilder, GoMap.set, hne]
      · rw [h3]
        simp [Formatter.cacheFormatter, Formatter.cacheBuilder, GoMap.set, hne]

theorem reachableFrom_preserves_no_builder {Ty V B F : Type} [DecidableEq Ty]
    (d : Deps Ty V B F) (f g : Formatter Ty B F) (hr : ReachableFrom d f g) (t : Ty)
    (x : Option B) (e : GoError) (hb : GoMap.index f.builders t = none)
    (he : d.makeBuilder t = (x, some e)) :
    g.builders t = f.builders t ∧ g.formatters t = f.formatters t := by
  induction hr with
  | refl => exact ⟨rfl, rfl⟩
  | step ro g o fields _ ih =>
    have hb1 : GoMap.index g.builders t = none := by
      simpa [GoMap.index, ih.1] using hb
    obtain ⟨h1, h2⟩ := format_preserves_no_builder d ro g o fields t x e hb1 he
    exact ⟨h1.trans ih.1, h2.trans ih.2⟩

theorem resetSafe_new {Ty B F : Type} : ResetSafe (NewFormatter : Formatter Ty B F) := by
  intro t _ m hm
  simp [NewFormatter, GoMap.index, GoMap.empty] at hm

theorem resetSafe_cacheBuilder {Ty B F : Type} [DecidableEq Ty] (f : Formatter Ty B F)
    (t : Ty) (b : Option B) (hs : ResetSafe f) : ResetSafe (f.cacheBuilder t b) := by
  intro t1 hb m hm key
  by_cases ht : t1 = t
  · subst ht
    rw [index_cacheBuilder_formatters] at hm
    simp only [Option.some.injEq] at hm
    subst hm
    rfl
  · rw [index_cacheBuilder_other _ _ _ _ ht] at hb
    have hm1 : GoMap.index f.formatters t1 = some m := by
      simpa [Formatter.cacheBuilder, GoMap.index, GoMap.set, ht] using hm
    exact hs t1 hb m hm1 key

theorem resetSafe_cacheFormatter {Ty B F : Type} [DecidableEq Ty] (f : Formatter Ty B F)
    (t : Ty) (m : GoMap String (Option F)) (key : String) (x : Option F) (b : B)
    (hs : ResetSafe f) (hb : GoMap.index f.builders t = some b) :
    ResetSafe (f.cacheFormatter t m key x) := by
  intro t1 hb1 m1 hm1 key1
  have hb2 : GoMap.index f.builders t1 = none := hb1
  have ht : t1 ≠ t := by
    intro hc
    rw [hc, hb] at hb2
    simp at hb2
  have hm2 : GoMap.index f.formatters t1 = some m1 := by
    simpa [Formatter.cacheFormatter, GoMap.index, GoMap.set, ht] using hm1
  exact hs t1 hb2 m1 hm2 key1

theorem resetSafe_format {Ty V B F : Type} [DecidableEq Ty] (d : Deps Ty V B F)
    (ro : RangeOrder) (f : Formatter Ty B F) (o : Option V) (fields : List String)
    (hs : ResetSafe f) : ResetSafe (Format d ro f o fields).state := by
  rcases format_state_cases d ro f o fields with h | ⟨v, _, _, _, h⟩
  · rw [h]
    exact hs
  · rcases h with ⟨b, m, x, h1, _, _, _, h5⟩ | ⟨b, _, _, h3⟩
    · rw [h5]
      exact resetSafe_cacheFormatter f _ m _ x b hs h1
    · have hs1 := resetSafe_cacheBuilder f (d.typeOf v) b hs
      rcases h3 with h3 | ⟨b1, x, h4, _, h6⟩
      · rw [h3]
        exact hs1
      · rw [h6]
        subst h4
        exact resetSafe_cacheFormatter _ _ GoMap.empty _ x b1 hs1
          (index_cacheBuilder_same f _ _)

theorem resetSafe_reachable {Ty V B F : Type} [DecidableEq Ty] (d : Deps Ty V B F)
    (f : Formatter Ty B F) (hr : Reachable d f) : ResetSafe f := by
  unfold Reachable at hr
  induction hr with
  | refl => exact resetSafe_new
  | step ro g o fields _ ih => exact resetSafe_format d ro g o fields ih

/-- Where the reset is safe, a cached formatter has a cached builder. -/
theorem builder_of_lookup {Ty B F : Type} (f : Formatter Ty B F) (hs : ResetSafe f) (t : Ty)
    (key : String) (ff : F) (hf : f.lookup t key = some ff) :
    ∃ b, GoMap.index f.builders t = some b := by
  cases hb : GoMap.index f.builders t with
  | some b => exact ⟨b, rfl⟩
  | none =>
    exfalso
    unfold Formatter.lookup at hf
    cases hm : GoMap.index f.formatters t with
    | none => simp [hm] at hf
    | some m =>
      simp only [hm] at hf
      have := hs t hb m hm key
      simp [GoMap.index, this] at hf

/-- A cached builder survives every call of `Format`. -/
theorem format_preserves_builder {Ty V B F : Type} [DecidableEq Ty] (d : Deps Ty V B F)
    (ro : RangeOrder) (f : Formatter Ty B F) (o : Option V) (fields : List String) (t : Ty)
    (b : B) (hb : GoMap.index f.builders t = some b) :
    GoMap.index (Format d ro f o fields).state.builders t = some b := by
  rcases format_state_cases d ro f o fields with h | ⟨v, _, _, _, h⟩
  · rw [h]
    exact hb
  · rcases h with ⟨b1, m, x, _, _, _, _, h5⟩ | ⟨b1, h1, _, h3⟩
    · rw [h5]
      exact hb
    · have hne : t ≠ d.typeOf v := by
        intro hc
        rw [hc, h1] at hb
        simp at hb
      rcases h3 with h3 | ⟨b2, x, _, _, h3⟩
      · rw [h3, index_cacheBuilder_other _ _ _ _ hne]
        exact hb
      · rw [h3]
        show GoMap.index (f.cacheBuilder (d.typeOf v) b1).builders t = some b
        rw [index_cacheBuilder_other _ _ _ _ hne]
        exact hb

theorem pairwise_stage_append {Ty V B F : Type} (calls rest : List (Call Ty V B F))
    (hp : (calls.map Call.stage).Pairwise (fun a b => a < b))
    (hs : ∀ c ∈ calls, c.stage < 2)
    (hr : (rest.map Call.stage).Pairwise (fun a b => a < b))
    (hr2 : ∀ c ∈ rest, 2 ≤ c.stage) :
    (((calls ++ rest).map Call.stage).Pairwise (fun a b => a < b)) := by
  rw [List.map_append, List.pairwise_append]
  refine ⟨hp, hr, ?_⟩
  intro a ha b hb
  obtain ⟨c1, hc1, rfl⟩ := List.mem_map.mp ha
  obtain ⟨c2, hc2, rfl⟩ := List.mem_map.mp hb
  have := hs c1 hc1
  have := hr2 c2 hc2
  omega

/-- What `formatWith` returns, in terms of the calls it records: after calls of
the first two stages that all succeeded, a returned error is the error of the
last recorded call and every call before it succeeded; without error, every
call succeeded, the last one is the `format` call and the result is its value. -/
theorem formatWith_returns {Ty V B F : Type} [DecidableEq Ty] (d : Deps Ty V B F)
    (ro : RangeOrder) (f : Formatter Ty B F) (v : V) (t : Ty) (b : Option B)
    (fields : List String) (calls : List (Call Ty V B F)) (r : Option V)
    (err : Option GoError)
    (hp : (calls.map Call.stage).Pairwise (fun a b => a < b))
    (hs : ∀ c ∈ calls, c.stage < 2) (hok : ∀ c ∈ calls, c.err d ro = none)
    (h : (formatWith d f v t b fields calls).out = .ret r err) :
    (((formatWith d f v t b fields calls).calls.map Call.stage).Pairwise
        (fun a b => a < b)) ∧
      (∀ e, err = some e → r = none ∧ ∃ pre c,
        (formatWith d f v t b fields calls).calls = pre ++ [c] ∧ c.err d ro = some e ∧
        ∀ c1 ∈ pre, c1.err d ro = none) ∧
      (err = none → (∀ c ∈ (formatWith d f v t b fields calls).calls, c.err d ro = none) ∧
        ∃ ff x, (formatWith d f v t b fields calls).calls.getLast? = some (.format ff v) ∧
          d.format ff v = (some x, none) ∧ r = some x) := by
  cases hl : f.lookup t (cacheKey fields) with
  | some ff =>
    have hc : (formatWith d f v t b fields calls).calls = calls ++ [.format ff v] := by
      simp [formatWith, hl]
    have ho : (formatWith d f v t b fields calls).out = applyFormatter d ff v := by
      simp [formatWith, hl]
    rw [ho] at h
    rw [hc]
    refine ⟨pairwise_stage_append calls [.format ff v] hp hs (by simp) (by simp [Call.stage]),
      ?_, ?_⟩
    · intro e he
      subst he
      obtain ⟨h1, h2⟩ := applyFormatter_error d ff v r e h
      exact ⟨h1, calls, .format ff v, rfl, h2, hok⟩
    · intro he
      subst he
      obtain ⟨x, h1, h2⟩ := applyFormatter_success d ff v r h
      refine ⟨?_, ff, x, by simp, h2, h1⟩
      intro c hcm
      rcases List.mem_append.mp hcm with h3 | h3
      · exact hok c h3
      · simp only [List.mem_singleton] at h3
        subst h3
        simp [Call.err, h2]
  | none =>
    cases b with
    | none => simp [formatWith, hl] at h
    | some b1 =>
      rcases hb : d.build b1 fields "" with ⟨y, _ | e1⟩
      · cases hm : GoMap.index f.formatters t with
        | none => simp [formatWith, hl, hb, hm] at h
        | some m =>
          cases y with
          | none => simp [formatWith, hl, hb, hm] at h
          | some ff =>
            have hc : (formatWith d f v t (some b1) fields calls).calls =
                calls ++ [.build b1 fields "", .format ff v] := by
              simp [formatWith, hl, hb, hm]
            have ho : (formatWith d f v t (some b1) fields calls).out =
                applyFormatter d ff v := by
              simp [formatWith, hl, hb, hm]
            rw [ho] at h
            rw [hc]
            have hbe : (Call.build b1 fields "" : Call Ty V B F).err d ro = none := by
              simp [Call.err, hb]
            refine ⟨pairwise_stage_append calls [.build b1 fields "", .format ff v] hp hs
              (by simp [Call.stage]) (by simp [Call.stage]), ?_, ?_⟩
            · intro e he
              subst he
              obtain ⟨h1, h2⟩ := applyFormatter_error d ff v r e h
              refine ⟨h1, calls ++ [.build b1 fields ""], .format ff v, by simp, h2, ?_⟩
              intro c hcm
              rcases List.mem_append.mp hcm with h3 | h3
              · exact hok c h3
              · simp only [List.mem_singleton] at h3
                subst h3
                exact hbe
            · intro he
              subst he
              obtain ⟨x, h1, h2⟩ := applyFormatter_success d ff v r h
              refine ⟨?_, ff, x, by simp, h2, h1⟩
              intro c hcm
              rcases List.mem_append.mp hcm with h3 | h3
              · exact hok c h3
              · simp only [List.mem_cons, List.mem_singleton, List.not_mem_nil,
                  or_false] at h3
                rcases h3 with rfl | rfl
                · exact hbe
                · simp [Call.err, h2]
      · have hc : (formatWith d f v t (some b1) fields calls).calls =
            calls ++ [.build b1 fields ""] := by
          simp [formatWith, hl, hb]
        have ho : (formatWith d f v t (some b1) fields calls).out =
            .ret none (some e1) := by
          simp [formatWith, hl, hb]
        rw [ho] at h
        simp only [Outcome.ret.injEq] at h
        obtain ⟨h1, h2⟩ := h
        subst h1 h2
        rw [hc]
        refine ⟨pairwise_stage_append calls [.build b1 fields ""] hp hs (by simp)
          (by simp [Call.stage]), ?_, ?_⟩
        · intro e he
          simp only [Option.some.injEq] at he
          subst he
          exact ⟨rfl, calls, .build b1 fields "", rfl, by simp [Call.err, hb], hok⟩
        · intro he
          simp at he

theorem reachable_of_commaFree {Ty V B F : Type} [DecidableEq Ty] (d : Deps Ty V B F)
    (f : Formatter Ty B F) (hr : ReachableCommaFree d f) : Reachable d f := by
  induction hr with
  | init => exact ReachableFrom.refl
  | step ro g o fields _ _ ih => exact ReachableFrom.step ro g o fields ih

theorem commaFreeCached_new {Ty V B F : Type} (d : Deps Ty V B F) :
    CommaFreeCached d (NewFormatter : Formatter Ty B F) := by
  intro t key ff h
  simp [NewFormatter, GoMap.index, GoMap.empty, Formatter.lookup] at h

theorem commaFreeCached_cacheBuilder {Ty V B F : Type} [DecidableEq Ty] (d : Deps Ty V B F)
    (f : Formatter Ty B F) (t : Ty) (b : Option B) (hs : CommaFreeCached d f) :
    CommaFreeCached d (f.cacheBuilder t b) := by
  intro t1 key ff hl
  by_cases ht : t1 = t
  · subst ht
    rw [lookup_cacheBuilder_same] at hl
    simp at hl
  · rw [lookup_cacheBuilder_other _ _ _ _ _ ht] at hl
    obtain ⟨b1, fields, h1, h2, h3, h4, h5⟩ := hs t1 key ff hl
    exact ⟨b1, fields, h1, h2, h3, by rw [index_cacheBuilder_other _ _ _ _ ht]; exact h4, h5⟩

theorem commaFreeCached_cacheFormatter {Ty V B F : Type} [DecidableEq Ty]
    (d : Deps Ty V B F) (f : Formatter Ty B F) (t : Ty) (m : GoMap String (Option F))
    (fields : List String) (x : Option F) (b : B) (hs : CommaFreeCached d f)
    (hne : fields ≠ []) (hcf : ∀ p ∈ fields, commaFree p)
    (hb : GoMap.index f.builders t = some b) (hm : GoMap.index f.formatters t = some m)
    (hx : d.build b fields "" = (x, none)) :
    CommaFreeCached d (f.cacheFormatter t m (cacheKey fields) x) := by
  intro t1 key ff hl
  by_cases hk : t1 = t ∧ key = cacheKey fields
  · obtain ⟨rfl, rfl⟩ := hk
    rw [lookup_cacheFormatter_same] at hl
    subst hl
    exact ⟨b, fields, hne, hcf, rfl, hb, hx⟩
  · rw [lookup_cacheFormatter_other f t m _ x t1 key hm (by tauto)] at hl
    exact hs t1 key ff hl

theorem commaFreeCached_format {Ty V B F : Type} [DecidableEq Ty] (d : Deps Ty V B F)
    (ro : RangeOrder) (f : Formatter Ty B F) (o : Option V) (fields : List String)
    (hs : CommaFreeCached d f) (hcf : ∀ p ∈ fields, commaFree p) :
    CommaFreeCached d (Format d ro f o fields).state := by
  rcases format_state_cases d ro f o fields with h | ⟨v, _, hne, _, h⟩
  · rw [h]
    exact hs
  · rcases h with ⟨b, m, x, h1, _, h3, h4, h5⟩ | ⟨b, _, _, h3⟩
    · rw [h5]
      exact commaFreeCached_cacheFormatter d f _ m fields x b hs hne hcf h1 h3 h4
    · have hs1 := commaFreeCached_cacheBuilder d f (d.typeOf v) b hs
      rcases h3 with h3 | ⟨b1, x, h4, h5, h6⟩
      · rw [h3]
        exact hs1
      · rw [h6]
        subst h4
        exact commaFreeCached_cacheFormatter d _ _ GoMap.empty fields x b1 hs1 hne hcf
          (index_cacheBuilder_same f _ _) (index_cacheBuilder_formatters f _ _) h5

theorem commaFreeCached_reachable {Ty V B F : Type} [DecidableEq Ty] (d : Deps Ty V B F)
    (f : Formatter Ty B F) (hr : ReachableCommaFree d f) : CommaFreeCached d f := by
  induction hr with
  | init => exact commaFreeCached_new d
  | step ro g o fields _ hcf ih => exact commaFreeCached_format d ro g o fields ih hcf

/-- What `formatWith` returns when the cache has no formatter under the key and
the inner map of the type is not nil: what `build` and then `format` give. -/
theorem formatWith_miss {Ty V B F : Type} [DecidableEq Ty] (d : Deps Ty V B F)
    (f : Formatter Ty B F) (v : V) (t : Ty) (b : B) (fields : List String)
    (calls : List (Call Ty V B F)) (m : GoMap String (Option F))
    (hl : f.lookup t (cacheKey fields) = none) (hm : GoMap.index f.formatters t = some m) :
    (formatWith d f v t (some b) fields calls).out =
      match d.build b fields "" with
      | (_, some err) => .ret none (some err)
      | (none, none) => .panic .nilFormatter
      | (some ff, none) => applyFormatter d ff v := by
  rcases hb : d.build b fields "" with ⟨x, _ | err⟩
  · cases x <;> simp [formatWith, hl, hb, hm]
  · simp [formatWith, hl, hb]

theorem buildersPaired_new {Ty B F : Type} :
    BuildersPaired (NewFormatter : Formatter Ty B F) := by
  intro t
  simp [NewFormatter, GoMap.index, GoMap.empty]

theorem buildersPaired_cacheBuilder {Ty B F : Type} [DecidableEq Ty] (f : Formatter Ty B F)
    (t : Ty) (b : B) (hs : BuildersPaired f) : BuildersPaired (f.cacheBuilder t (some b)) := by
  intro t1
  by_cases ht : t1 = t
  · subst ht
    simp [Formatter.cacheBuilder, GoMap.index, GoMap.set]
  · have := hs t1
    simpa [Formatter.cacheBuilder, GoMap.index, GoMap.set, ht] using this

theorem buildersPaired_cacheFormatter {Ty B F : Type} [DecidableEq Ty]
    (f : Formatter Ty B F) (t : Ty) (m : GoMap String (Option F)) (key : String)
    (x : Option F) (hs : BuildersPaired f) (hm : GoMap.index f.formatters t = some m) :
    BuildersPaired (f.cacheFormatter t m key x) := by
  intro t1
  by_cases ht : t1 = t
  · subst ht
    have h1 := hs t1
    refine ⟨?_, h1.2⟩
    have h2 : f.builders t1 ≠ none := h1.1.mpr ⟨m, hm⟩
    constructor
    · intro _
      exact ⟨m.set key x, by simp [Formatter.cacheFormatter, GoMap.index, GoMap.set]⟩
    · intro _
      exact h2
  · have := hs t1
    simpa [Formatter.cacheFormatter, GoMap.index, GoMap.set, ht] using this

theorem buildersPaired_format {Ty V B F : Type} [DecidableEq Ty] (d : Deps Ty V B F)
    (hnn : ∀ t b, d.makeBuilder t = (b, none) → b ≠ none)
    (ro : RangeOrder) (f : Formatter Ty B F) (o : Option V) (fields : List String)
    (hs : BuildersPaired f) : BuildersPaired (Format d ro f o fields).state := by
  rcases format_state_cases d ro f o fields with h | ⟨v, _, _, _, h⟩
  · rw [h]
    exact hs
  · rcases h with ⟨b, m, x, _, _, h3, _, h5⟩ | ⟨b, _, h2, h3⟩
    · rw [h5]
      exact buildersPaired_cacheFormatter f _ m _ x hs h3
    · cases b with
      | none => exact absurd rfl (hnn _ _ h2)
      | some b0 =>
        have hs1 := buildersPaired_cacheBuilder f (d.typeOf v) b0 hs
        rcases h3 with h3 | ⟨b1, x, _, _, h6⟩
        · rw [h3]
          exact hs1
        · rw [h6]
          exact buildersPaired_cacheFormatter _ _ GoMap.empty _ x hs1
            (index_cacheBuilder_formatters f _ _)

theorem buildersPaired_reachable {Ty V B F : Type} [DecidableEq Ty] (d : Deps Ty V B F)
    (hnn : ∀ t b, d.makeBuilder t = (b, none) → b ≠ none)
    (f : Formatter Ty B F) (hr : Reachable d f) : BuildersPaired f := by
  unfold Reachable at hr
  induction hr with
  | refl => exact buildersPaired_new
  | step ro g o fields _ ih => exact buildersPaired_format d hnn ro g o fields ih

theorem applyFormatter_not_assign {Ty V B F : Type} (d : Deps Ty V B F) (ff : F) (v : V) :
    applyFormatter d ff v ≠ .panic .assignToNilMap := by
  unfold applyFormatter
  split <;> simp

/-- With a non-nil inner map for the type, `formatWith` does not assign into a
nil map. -/
theorem formatWith_not_assign {Ty V B F : Type} [DecidableEq Ty] (d : Deps Ty V B F)
    (f : Formatter Ty B F) (v : V) (t : Ty) (b : Option B) (fields : List String)
    (calls : List (Call Ty V B F)) (m : GoMap String (Option F))
    (hm : GoMap.index f.formatters t = some m) :
    (formatWith d f v t b fields calls).out ≠ .panic .assignToNilMap := by
  cases hl : f.lookup t (cacheKey fields) with
  | some ff =>
    simp only [formatWith, hl]
    exact applyFormatter_not_assign d ff v
  | none =>
    cases b with
    | none => simp [formatWith, hl]
    | some b1 =>
      rcases hb : d.build b1 fields "" with ⟨x, _ | err⟩
      · cases x with
        | none => simp [formatWith, hl, hb, hm]
        | some ff1 =>
          simp only [formatWith, hl, hb, hm]
          exact applyFormatter_not_assign d ff1 v
      · simp [formatWith, hl, hb]

/-! ## Theorems: the builder and the formatter of the specification -/

theorem makeBuilder_non_nil (tt : TypeTable) (t : GoType) (b : Option builder)
    (h : (specDeps tt).makeBuilder t = (b, none)) : b ≠ none := by
  have h1 : makeBuilder tt t = (b, none) := h
  unfold makeBuilder at h1
  split at h1
  · simp only [Prod.mk.injEq, and_true] at h1
    rw [← h1]
    simp
  · simp at h1

theorem build_non_nil (tt : TypeTable) (b : builder) (fs : List String) (p : String)
    (x : Option formatter) (h : (specDeps tt).build b fs p = (x, none)) : x ≠ none := by
  have h1 : b.build tt fs p = (x, none) := h
  unfold builder.build at h1
  split at h1
  · simp only [Prod.mk.injEq, and_true] at h1
    rw [← h1]
    simp
  · simp at h1

theorem format_non_nil (tt : TypeTable) (ff : formatter) (w : GoValue) (x : Option GoValue)
    (h : (specDeps tt).format ff w = (x, none)) : x ≠ none := by
  simp only [specDeps] at h
  split at h
  · simp only [Prod.mk.injEq, and_true] at h
    rw [← h]
    simp
  · simp at h

/-! ## Theorems: the claims -/

/-- C1: with an empty field list `Format` returns `(o, nil)` for every cache
state and every input value `o`, supported or not, the nil interface value
included; the `builders` map and the `formatters` map are unchanged and no call
(validation, `makeBuilder`, `build`, `format`) is made. -/
theorem format_empty_fields {Ty V B F : Type} [DecidableEq Ty] (d : Deps Ty V B F)
    (ro : RangeOrder) (f : Formatter Ty B F) (o : Option V) :
    (Format d ro f o []).out = .ret o none ∧
      (Format d ro f o []).state.builders = f.builders ∧
      (Format d ro f o []).state.formatters = f.formatters ∧
      (Format d ro f o []).calls = [] := by
  simp [Format]

/-- C2: `detectDuplicateFields` returns an error exactly when some string
occurs at least twice in the list, whatever the iteration order of the counting
map; strings are compared exactly, so `["address", "address.city"]` and
`["Name", "name"]` yield nil. -/
theorem detectDuplicateFields_error_iff (ro : RangeOrder) (fields : List String) :
    ((detectDuplicateFields ro fields).isSome ↔ ∃ x, 2 ≤ fields.count x) ∧
      detectDuplicateFields ro ["address", "address.city"] = none ∧
      detectDuplicateFields ro ["Name", "name"] = none :=
  ⟨detectDuplicateFields_isSome_iff ro fields,
    detectDuplicateFields_of_nodup ro _ (by decide),
    detectDuplicateFields_of_nodup ro _ (by decide)⟩

/-- C3: when some name occurs more than once in the field list, `Format`
returns the error `"duplicate fields detected: "` followed by the list `e`
joined with `", "`, and `e` holds exactly the names whose occurrence count is
greater than 1: each such name once, and no name that occurs only once. -/
theorem format_duplicate_error_names {Ty V B F : Type} [DecidableEq Ty] (d : Deps Ty V B F)
    (ro : RangeOrder) (f : Formatter Ty B F) (o : Option V) (fields : List String)
    (h : ∃ x, 1 < fields.count x) :
    (Format d ro f o fields).out =
        .ret none (some ("duplicate fields detected: " ++
          stringsJoin (duplicateNames ro fields) ", ")) ∧
      (duplicateNames ro fields).Nodup ∧
      ∀ x, x ∈ duplicateNames ro fields ↔ 1 < fields.count x := by
  refine ⟨?_, nodup_duplicateNames ro fields, mem_duplicateNames ro fields⟩
  obtain ⟨x, hx⟩ := h
  have hne : fields.length ≠ 0 := by
    intro h0
    have : fields = [] := List.length_eq_zero.mp h0
    subst this
    simp at hx
  simp [Format, hne, detectDuplicateFields_of_dup ro fields ⟨x, hx⟩]

theorem format_duplicate_error_names_witness :
    (∃ x, 1 < ["Name", "Age", "Name"].count x) ∧
      ((Format (specDeps exampleTypes) RangeOrder.insertion NewFormatter (some examplePerson)
          ["Name", "Age", "Name"]).out =
        .ret none (some ("duplicate fields detected: " ++
          stringsJoin (duplicateNames RangeOrder.insertion ["Name", "Age", "Name"]) ", ")) ∧
      (duplicateNames RangeOrder.insertion ["Name", "Age", "Name"]).Nodup ∧
      ∀ x, x ∈ duplicateNames RangeOrder.insertion ["Name", "Age", "Name"] ↔
        1 < ["Name", "Age", "Name"].count x) :=
  ⟨⟨"Name", by decide⟩,
    format_duplicate_error_names (specDeps exampleTypes) RangeOrder.insertion NewFormatter
      (some examplePerson) ["Name", "Age", "Name"] ⟨"Name", by decide⟩⟩

/-- C4: for every cache state, every value `o` (nil, or of unsupported type,
included) and every field list with a duplicate, `Format` returns
`(nil, duplicate-field error)`; the only call made is the validation, so neither
`makeBuilder` nor `build` runs and no other error can take its place; the
`builders` map and the `formatters` map are as before the call. -/
theorem format_duplicate_before_type_work {Ty V B F : Type} [DecidableEq Ty]
    (d : Deps Ty V B F) (ro : RangeOrder) (f : Formatter Ty B F) (o : Option V)
    (fields : List String) (h : ∃ x, 1 < fields.count x) :
    (∃ err, detectDuplicateFields ro fields = some err ∧
        (Format d ro f o fields).out = .ret none (some err)) ∧
      (Format d ro f o fields).calls = [.detectDuplicateFields fields] ∧
      (Format d ro f o fields).state.builders = f.builders ∧
      (Format d ro f o fields).state.formatters = f.formatters := by
  obtain ⟨x, hx⟩ := h
  have hne : fields.length ≠ 0 := by
    intro h0
    have : fields = [] := List.length_eq_zero.mp h0
    subst this
    simp at hx
  have hd := detectDuplicateFields_of_dup ro fields ⟨x, hx⟩
  refine ⟨⟨_, hd, ?_⟩, ?_, ?_, ?_⟩ <;> simp [Format, hne, hd]

theorem format_duplicate_before_type_work_witness :
    (∃ x, 1 < ["Nope", "Nope"].count x) ∧
      ((∃ err, detectDuplicateFields RangeOrder.insertion ["Nope", "Nope"] = some err ∧
          (Format (specDeps exampleTypes) RangeOrder.insertion NewFormatter
            (some (GoValue.scalar "int" "3")) ["Nope", "Nope"]).out = .ret none (some err)) ∧
        (Format (specDeps exampleTypes) RangeOrder.insertion NewFormatter
            (some (GoValue.scalar "int" "3")) ["Nope", "Nope"]).calls =
          [.detectDuplicateFields ["Nope", "Nope"]] ∧
        (Format (specDeps exampleTypes) RangeOrder.insertion NewFormatter
            (some (GoValue.scalar "int" "3")) ["Nope", "Nope"]).state.builders =
          (NewFormatter : Formatter GoType builder formatter).builders ∧
        (Format (specDeps exampleTypes) RangeOrder.insertion NewFormatter
            (some (GoValue.scalar "int" "3")) ["Nope", "Nope"]).state.formatters =
          (NewFormatter : Formatter GoType builder formatter).formatters) :=
  ⟨⟨"Nope", by decide⟩,
    format_duplicate_before_type_work (specDeps exampleTypes) RangeOrder.insertion
      NewFormatter (some (GoValue.scalar "int" "3")) ["Nope", "Nope"] ⟨"Nope", by decide⟩⟩

/-- C5 (counterexample): on a fresh `Formatter`, `Format` of the struct
`{Name, Age, City}` with the field list `["Nope"]` returns a non-nil error (from
`build`), and the `builders` map is no longer what it was before the call: it
holds the builder compiled for the struct type. -/
theorem format_error_not_atomic :
    (Format (specDeps exampleTypes) RangeOrder.insertion NewFormatter (some examplePerson)
        ["Nope"]).out = .ret none (some "field not found: Nope in type Person") ∧
      (Format (specDeps exampleTypes) RangeOrder.insertion NewFormatter (some examplePerson)
        ["Nope"]).state.builders ≠
        (NewFormatter : Formatter GoType builder formatter).builders := by
  refine ⟨rfl, fun h => ?_⟩
  have h1 := congrFun h (GoType.struct "Person")
  have h2 : ((Format (specDeps exampleTypes) RangeOrder.insertion NewFormatter
      (some examplePerson) ["Nope"]).state.builders (GoType.struct "Person")).isSome = true := rfl
  rw [h1] at h2
  exact absurd h2 (by simp [NewFormatter, GoMap.empty])

/-- The caches after a call of `Format` that returned an error: unchanged, or
changed by what the call compiled before the failing stage. -/
theorem format_error_cases {Ty V B F : Type} [DecidableEq Ty] (d : Deps Ty V B F)
    (ro : RangeOrder) (f : Formatter Ty B F) (o : Option V) (fields : List String)
    (r : Option V) (e : GoError) (h : (Format d ro f o fields).out = .ret r (some e)) :
    r = none ∧
      ((Format d ro f o fields).state = f ∨
        ∃ v, o = some v ∧ detectDuplicateFields ro fields = none ∧
          ((∃ b, GoMap.index f.builders (d.typeOf v) = none ∧
              d.makeBuilder (d.typeOf v) = (some b, none) ∧
              (d.build b fields "").2 = some e ∧
              (Format d ro f o fields).state = f.cacheBuilder (d.typeOf v) (some b)) ∨
            (∃ b ff, GoMap.index f.builders (d.typeOf v) = none ∧
              d.makeBuilder (d.typeOf v) = (some b, none) ∧
              d.build b fields "" = (some ff, none) ∧ (d.format ff v).2 = some e ∧
              (Format d ro f o fields).state =
                (f.cacheBuilder (d.typeOf v) (some b)).cacheFormatter (d.typeOf v)
                  GoMap.empty (cacheKey fields) (some ff)) ∨
            (∃ b m ff, GoMap.index f.builders (d.typeOf v) = some b ∧
              f.lookup (d.typeOf v) (cacheKey fields) = none ∧
              GoMap.index f.formatters (d.typeOf v) = some m ∧
              d.build b fields "" = (some ff, none) ∧ (d.format ff v).2 = some e ∧
              (Format d ro f o fields).state =
                f.cacheFormatter (d.typeOf v) m (cacheKey fields) (some ff)))) := by
  by_cases hne : fields = []
  · subst hne
    simp [Format] at h
  have hlen : fields.length ≠ 0 := fun h0 => hne (List.length_eq_zero.mp h0)
  cases hd : detectDuplicateFields ro fields with
  | some err =>
    simp only [Format, hlen, hd, if_false, Outcome.ret.injEq] at h
    simp [Format, hlen, hd, h.1.symm]
  | none =>
    cases o with
    | none => simp [Format, hlen, hd, reflectValueOf] at h
    | some v =>
      have hF := format_of_valid d ro f v fields hne hd
      cases hb : GoMap.index f.builders (d.typeOf v) with
      | some b =>
        simp only [hb] at hF
        rw [hF] at h ⊢
        obtain ⟨h1, h2⟩ := formatWith_error d f v _ _ fields _ r e h
        refine ⟨h1, ?_⟩
        rcases h2 with ⟨h3, _⟩ | ⟨b1, m, ff, h3, h4, h5, h6, h7, h8⟩
        · exact Or.inl h3
        · simp only [Option.some.injEq] at h3
          subst h3
          exact Or.inr ⟨v, rfl, rfl, Or.inr (Or.inr ⟨b, m, ff, hb, h4, h5, h6, h8, h7⟩)⟩
      | none =>
        rcases hm : d.makeBuilder (d.typeOf v) with ⟨b, _ | err⟩
        · simp only [hb, hm] at hF
          rw [hF] at h ⊢
          obtain ⟨h1, h2⟩ := formatWith_error d _ v _ _ fields _ r e h
          refine ⟨h1, Or.inr ⟨v, rfl, rfl, ?_⟩⟩
          rcases h2 with ⟨h3, h4⟩ | ⟨b1, m, ff, h3, h4, h5, h6, h7, h8⟩
          · rcases h4 with ⟨ff, h5, _⟩ | ⟨b1, h5, _, h7⟩
            · rw [lookup_cacheBuilder_same] at h5
              simp at h5
            · subst h5
              exact Or.inl ⟨b1, hb, hm, h7, h3⟩
          · subst h3
            rw [index_cacheBuilder_formatters] at h5
            simp only [Option.some.injEq] at h5
            subst h5
            exact Or.inr (Or.inl ⟨b1, ff, hb, hm, h6, h8, h7⟩)
        · simp only [hb, hm] at hF
          rw [hF] at h ⊢
          simp only [Outcome.ret.injEq] at h
          exact ⟨h.1.symm, Or.inl rfl⟩

/-- The caches after `formatWith` when the formatter is cached, or when `build`
fails: unchanged. -/
theorem formatWith_state_unchanged {Ty V B F : Type} [DecidableEq Ty] (d : Deps Ty V B F)
    (f : Formatter Ty B F) (v : V) (t : Ty) (b : B) (fields : List String)
    (calls : List (Call Ty V B F))
    (h : f.lookup t (cacheKey fields) ≠ none ∨ (d.build b fields "").2 ≠ none) :
    (formatWith d f v t (some b) fields calls).state = f := by
  cases hl : f.lookup t (cacheKey fields) with
  | some ff => simp [formatWith, hl]
  | none =>
    rcases hb : d.build b fields "" with ⟨x, _ | err⟩
    · rw [hl, hb] at h
      simp at h
    · simp [formatWith, hl, hb]

/-- The caches after `formatWith` when no formatter is cached, `build` returns a
formatter and the inner map is not nil: the formatter is inserted. -/
theorem formatWith_state_insert {Ty V B F : Type} [DecidableEq Ty] (d : Deps Ty V B F)
    (f : Formatter Ty B F) (v : V) (t : Ty) (b : B) (fields : List String)
    (calls : List (Call Ty V B F)) (m : GoMap String (Option F)) (ff : F)
    (hl : f.lookup t (cacheKey fields) = none) (hm : GoMap.index f.formatters t = some m)
    (hb : d.build b fields "" = (some ff, none)) :
    (formatWith d f v t (some b) fields calls).state =
      f.cacheFormatter t m (cacheKey fields) (some ff) := by
  simp [formatWith, hl, hb, hm]

/-- Inserting a formatter under a key without cached formatter changes the
`formatters` map. -/
theorem cacheFormatter_formatters_ne {Ty B F : Type} [DecidableEq Ty] (f : Formatter Ty B F)
    (t : Ty) (m : GoMap String (Option F)) (key : String) (ff : F)
    (hl : f.lookup t key = none) :
    (f.cacheFormatter t m key (some ff)).formatters ≠ f.formatters := by
  intro hc
  have h1 : (f.cacheFormatter t m key (some ff)).lookup t key = f.lookup t key := by
    unfold Formatter.lookup
    rw [hc]
  rw [lookup_cacheFormatter_same, hl] at h1
  simp at h1

/-- Caching a builder for a type without cached builder changes the `builders`
map. -/
theorem cacheBuilder_builders_ne {Ty B F : Type} [DecidableEq Ty] (f : Formatter Ty B F)
    (t : Ty) (b : B) (hb : GoMap.index f.builders t = none) :
    (f.cacheBuilder t (some b)).builders ≠ f.builders := by
  intro hc
  have h1 : GoMap.index (f.cacheBuilder t (some b)).builders t = GoMap.index f.builders t := by
    rw [hc]
  rw [index_cacheBuilder_same, hb] at h1
  simp at h1

/-- C5 (amended): if `Format` returns a non-nil error, the result is nil, and
the caches after the call are determined by the stage that failed. They are
exactly as before the call when the error comes from validation, from
`makeBuilder`, or from `build` or `format` with nothing compiled in this call
(the builder was cached, and the formatter was cached or `build` failed). When
the error comes from `format` after `build` compiled the formatter `ff` in this
call, the caches are the earlier ones with `formatters[t][key] = ff` added, and
the `formatters` map is not what it was. When the error comes from `build`
after `makeBuilder` compiled the builder `b` in this call, the caches are the
earlier ones with `builders[t] = b` and `formatters[t] = {}`, and the `builders`
map is not what it was; when it comes from `format` after both compilations,
`formatters[t][key] = ff` is added as well. -/
theorem format_error_caches {Ty V B F : Type} [DecidableEq Ty] (d : Deps Ty V B F)
    (ro : RangeOrder) (f : Formatter Ty B F) (o : Option V) (fields : List String)
    (r : Option V) (e : GoError) (h : (Format d ro f o fields).out = .ret r (some e)) :
    r = none ∧
      (detectDuplicateFields ro fields ≠ none → (Format d ro f o fields).state = f) ∧
      (∀ v, o = some v → GoMap.index f.builders (d.typeOf v) = none →
        (d.makeBuilder (d.typeOf v)).2 ≠ none → (Format d ro f o fields).state = f) ∧
      (∀ v b, o = some v → GoMap.index f.builders (d.typeOf v) = some b →
        (f.lookup (d.typeOf v) (cacheKey fields) ≠ none ∨ (d.build b fields "").2 ≠ none) →
        (Format d ro f o fields).state = f) ∧
      (∀ v b ff, o = some v → fields.Nodup →
        GoMap.index f.builders (d.typeOf v) = some b →
        f.lookup (d.typeOf v) (cacheKey fields) = none →
        d.build b fields "" = (some ff, none) →
        ∃ m, GoMap.index f.formatters (d.typeOf v) = some m ∧
          (Format d ro f o fields).state =
            f.cacheFormatter (d.typeOf v) m (cacheKey fields) (some ff) ∧
          (Format d ro f o fields).state.formatters ≠ f.formatters) ∧
      (∀ v b, o = some v → fields.Nodup → GoMap.index f.builders (d.typeOf v) = none →
        d.makeBuilder (d.typeOf v) = (some b, none) → (d.build b fields "").2 ≠ none →
        (Format d ro f o fields).state = f.cacheBuilder (d.typeOf v) (some b) ∧
          (Format d ro f o fields).state.builders ≠ f.builders) ∧
      (∀ v b ff, o = some v → fields.Nodup → GoMap.index f.builders (d.typeOf v) = none →
        d.makeBuilder (d.typeOf v) = (some b, none) →
        d.build b fields "" = (some ff, none) →
        (Format d ro f o fields).state =
            (f.cacheBuilder (d.typeOf v) (some b)).cacheFormatter (d.typeOf v) GoMap.empty
              (cacheKey fields) (some ff) ∧
          (Format d ro f o fields).state.builders ≠ f.builders ∧
          (Format d ro f o fields).state.lookup (d.typeOf v) (cacheKey fields) = some ff) := by
  have hne : fields ≠ [] := by
    rintro rfl
    simp [Format] at h
  have hlen : fields.length ≠ 0 := fun h0 => hne (List.length_eq_zero.mp h0)
  have hdup : detectDuplicateFields ro fields ≠ none → (Format d ro f o fields).state = f := by
    intro hd
    cases hd1 : detectDuplicateFields ro fields with
    | none => exact absurd hd1 hd
    | some e1 => simp [Format, hlen, hd1]
  have hvalid : ∀ v, o = some v → (Format d ro f o fields).state ≠ f →
      detectDuplicateFields ro fields = none := by
    intro v _ hs
    by_contra hd
    exact hs (hdup hd)
  refine ⟨(format_error_cases d ro f o fields r e h).1, hdup, ?_, ?_, ?_, ?_, ?_⟩
  · intro v ho hb hm
    subst ho
    by_contra hs
    have hd := hvalid v rfl hs
    apply hs
    rw [format_of_valid d ro f v fields hne hd]
    rcases hmk : d.makeBuilder (d.typeOf v) with ⟨x, _ | e1⟩
    · rw [hmk] at hm
      simp at hm
    · simp [hb]
  · intro v b ho hb hc
    subst ho
    by_contra hs
    have hd := hvalid v rfl hs
    apply hs
    rw [format_of_valid d ro f v fields hne hd]
    simp only [hb]
    exact formatWith_state_unchanged d f v (d.typeOf v) b fields _ hc
  · intro v b ff ho hnd hb hl hbuild
    subst ho
    have hd := detectDuplicateFields_of_nodup ro fields hnd
    have hF := format_of_valid d ro f v fields hne hd
    simp only [hb] at hF
    cases hm : GoMap.index f.formatters (d.typeOf v) with
    | none =>
      rw [hF] at h
      simp [formatWith, hl, hbuild, hm] at h
    | some m =>
      have hst := formatWith_state_insert d f v (d.typeOf v) b fields
        [.detectDuplicateFields fields] m ff hl hm hbuild
      refine ⟨m, rfl, by rw [hF, hst], ?_⟩
      rw [hF, hst]
      exact cacheFormatter_formatters_ne f _ m _ ff hl
  · intro v b ho hnd hb hmk hbuild
    subst ho
    have hd := detectDuplicateFields_of_nodup ro fields hnd
    have hF := format_of_valid d ro f v fields hne hd
    simp only [hb, hmk] at hF
    have hst := formatWith_state_unchanged d (f.cacheBuilder (d.typeOf v) (some b)) v
      (d.typeOf v) b fields [.detectDuplicateFields fields, .makeBuilder (d.typeOf v)]
      (Or.inr hbuild)
    refine ⟨by rw [hF, hst], ?_⟩
    rw [hF, hst]
    exact cacheBuilder_builders_ne f _ b hb
  · intro v b ff ho hnd hb hmk hbuild
    subst ho
    have hd := detectDuplicateFields_of_nodup ro fields hnd
    have hF := format_of_valid d ro f v fields hne hd
    simp only [hb, hmk] at hF
    have hst := formatWith_state_insert d (f.cacheBuilder (d.typeOf v) (some b)) v
      (d.typeOf v) b fields [.detectDuplicateFields fields, .makeBuilder (d.typeOf v)]
      GoMap.empty ff
      (lookup_cacheBuilder_same f _ _ _) (index_cacheBuilder_formatters f _ _) hbuild
    refine ⟨by rw [hF, hst], ?_, ?_⟩
    · rw [hF, hst]
      exact cacheBuilder_builders_ne f _ b hb
    · rw [hF, hst]
      exact lookup_cacheFormatter_same _ _ _ _ _

theorem format_error_caches_witness :
    ((Format (specDeps exampleTypes) RangeOrder.insertion NewFormatter (some examplePerson)
        ["Nope"]).out = .ret none (some "field not found: Nope in type Person") ∧
      (Format (specDeps exampleTypes) RangeOrder.insertion NewFormatter
        (some (GoValue.struct "Person" [])) ["Name"]).out =
        .ret none (some "type mismatch: formatter for Name applied to projection")) ∧
      ((none : Option GoValue) = none ∧
        (Format (specDeps exampleTypes) RangeOrder.insertion NewFormatter (some examplePerson)
            ["Nope"]).state =
          NewFormatter.cacheBuilder ((specDeps exampleTypes).typeOf examplePerson)
            (some ⟨.struct "Person", describe (structFields exampleTypes "Person")⟩) ∧
        (Format (specDeps exampleTypes) RangeOrder.insertion NewFormatter (some examplePerson)
            ["Nope"]).state.builders ≠
          (NewFormatter : Formatter GoType builder formatter).builders) ∧
      (Format (specDeps exampleTypes) RangeOrder.insertion NewFormatter
          (some (GoValue.struct "Person" [])) ["Name"]).state.builders ≠
        (NewFormatter : Formatter GoType builder formatter).builders ∧
      (Format (specDeps exampleTypes) RangeOrder.insertion NewFormatter
          (some (GoValue.struct "Person" [])) ["Name"]).state.lookup
          ((specDeps exampleTypes).typeOf (GoValue.struct "Person" [])) (cacheKey ["Name"]) =
        some (.mk (.struct "Person") [⟨"Name", "Name", .directCopy⟩]) :=
  have h := format_error_caches (specDeps exampleTypes) RangeOrder.insertion NewFormatter
    (some examplePerson) ["Nope"] none "field not found: Nope in type Person" (by rfl)
  have h5 := h.2.2.2.2.2.1 examplePerson
    ⟨.struct "Person", describe (structFields exampleTypes "Person")⟩ rfl (by decide)
    (by rfl) (by rfl) (by
      have hb : ((specDeps exampleTypes).build
          ⟨.struct "Person", describe (structFields exampleTypes "Person")⟩ ["Nope"] "").2 =
          some "field not found: Nope in type Person" := by rfl
      rw [hb]
      simp)
  have g := format_error_caches (specDeps exampleTypes) RangeOrder.insertion NewFormatter
    (some (GoValue.struct "Person" [])) ["Name"] none
    "type mismatch: formatter for Name applied to projection" (by rfl)
  have g6 := g.2.2.2.2.2.2 (GoValue.struct "Person" [])
    ⟨.struct "Person", describe (structFields exampleTypes "Person")⟩
    (.mk (.struct "Person") [⟨"Name", "Name", .directCopy⟩]) rfl (by decide)
    (by rfl) (by rfl) (by rfl)
  ⟨⟨by rfl, by rfl⟩, ⟨h.1, h5.1, h5.2⟩, g6.2.1, g6.2.2⟩

/-- C6: for every cache state, every value of type `t` and every non-empty
duplicate-free field list whose key has no cached formatter, with `b` the
builder of `t` (cached, or returned by `makeBuilder` in this call): if
`b.build(fields, "")` returns an error, `Format` returns `(nil, that error)` and
after the call `formatters[t]` has no entry under `strings.Join(fields, ",")`. -/
theorem format_build_error_no_entry {Ty V B F : Type} [DecidableEq Ty] (d : Deps Ty V B F)
    (ro : RangeOrder) (f : Formatter Ty B F) (v : V) (fields : List String) (b : B)
    (x : Option F) (e : GoError) (hne : fields ≠ []) (hnd : fields.Nodup)
    (hk : f.lookup (d.typeOf v) (stringsJoin fields ",") = none)
    (hb : GoMap.index f.builders (d.typeOf v) = some b ∨
      (GoMap.index f.builders (d.typeOf v) = none ∧
        d.makeBuilder (d.typeOf v) = (some b, none)))
    (he : d.build b fields "" = (x, some e)) :
    (Format d ro f (some v) fields).out = .ret none (some e) ∧
      (Format d ro f (some v) fields).state.lookup (d.typeOf v) (stringsJoin fields ",") =
        none ∧
      ((Format d ro f (some v) fields).state = f ∨
        (Format d ro f (some v) fields).state = f.cacheBuilder (d.typeOf v) (some b)) := by
  have hd := detectDuplicateFields_of_nodup ro fields hnd
  rw [format_of_valid d ro f v fields hne hd]
  rcases hb with hb | ⟨hb, hm⟩
  · simp [hb, formatWith, cacheKey, hk, he]
  · simp [hb, hm, formatWith, cacheKey, lookup_cacheBuilder_same, he]

theorem format_build_error_no_entry_witness :
    (["Nope"] ≠ [] ∧ ["Nope"].Nodup ∧
      (NewFormatter : Formatter GoType builder formatter).lookup
        ((specDeps exampleTypes).typeOf examplePerson) (stringsJoin ["Nope"] ",") = none ∧
      (GoMap.index (NewFormatter : Formatter GoType builder formatter).builders
          ((specDeps exampleTypes).typeOf examplePerson) =
          some ⟨.struct "Person", describe (structFields exampleTypes "Person")⟩ ∨
        (GoMap.index (NewFormatter : Formatter GoType builder formatter).builders
            ((specDeps exampleTypes).typeOf examplePerson) = none ∧
          (specDeps exampleTypes).makeBuilder ((specDeps exampleTypes).typeOf examplePerson) =
            (some ⟨.struct "Person", describe (structFields exampleTypes "Person")⟩, none))) ∧
      (specDeps exampleTypes).build ⟨.struct "Person", describe (structFields exampleTypes "Person")⟩
        ["Nope"] "" = (none, some "field not found: Nope in type Person")) ∧
    ((Format (specDeps exampleTypes) RangeOrder.insertion NewFormatter (some examplePerson)
        ["Nope"]).out = .ret none (some "field not found: Nope in type Person") ∧
      (Format (specDeps exampleTypes) RangeOrder.insertion NewFormatter (some examplePerson)
        ["Nope"]).state.lookup ((specDeps exampleTypes).typeOf examplePerson)
        (stringsJoin ["Nope"] ",") = none ∧
      ((Format (specDeps exampleTypes) RangeOrder.insertion NewFormatter (some examplePerson)
          ["Nope"]).state = NewFormatter ∨
        (Format (specDeps exampleTypes) RangeOrder.insertion NewFormatter (some examplePerson)
          ["Nope"]).state =
          NewFormatter.cacheBuilder ((specDeps exampleTypes).typeOf examplePerson)
            (some ⟨.struct "Person", describe (structFields exampleTypes "Person")⟩))) :=
  ⟨⟨by decide, by decide, by rfl, Or.inr ⟨by rfl, by rfl⟩, by rfl⟩,
    format_build_error_no_entry (specDeps exampleTypes) RangeOrder.insertion NewFormatter
      examplePerson ["Nope"] ⟨.struct "Person", describe (structFields exampleTypes "Person")⟩
      none "field not found: Nope in type Person" (by decide) (by decide) (by rfl)
      (Or.inr ⟨by rfl, by rfl⟩) (by rfl)⟩

/-- C7: after a call `Format(o, fields)` that succeeded, from any cache state
(the states reachable from `NewFormatter` included), every later call
`Format(o2, fields)` with `o2` of the same run-time type, after any sequence of
`Format` calls in between, invokes neither `makeBuilder` nor `build`, leaves the
`builders` and `formatters` maps unchanged, and (for a non-empty field list,
the only ones for which a formatter is cached) returns the result of applying
to `o2` the formatter that the first call left in the cache. -/
theorem format_compiles_once {Ty V B F : Type} [DecidableEq Ty] (d : Deps Ty V B F)
    (ro : RangeOrder) (f : Formatter Ty B F) (o : Option V) (fields : List String)
    (r : Option V) (h : (Format d ro f o fields).out = .ret r none)
    (g : Formatter Ty B F) (hr : ReachableFrom d (Format d ro f o fields).state g)
    (ro2 : RangeOrder) (o2 : Option V) (ht : ifaceType d o2 = ifaceType d o) :
    (∀ c ∈ (Format d ro2 g o2 fields).calls, c.isCompile = false) ∧
      (Format d ro2 g o2 fields).state = g ∧
      (fields ≠ [] → ∃ ff v2, o2 = some v2 ∧
        (Format d ro f o fields).state.lookup (d.typeOf v2) (cacheKey fields) = some ff ∧
        (Format d ro2 g o2 fields).out = applyFormatter d ff v2) := by
  by_cases hne : fields = []
  · subst hne
    simp [Format]
  obtain ⟨v, b, ff, ho, hnd, hb, hf, _⟩ := format_success_cached d ro f o fields r hne h
  subst ho
  cases o2 with
  | none => simp [ifaceType] at ht
  | some v2 =>
    have htv : d.typeOf v2 = d.typeOf v := by simpa [ifaceType] using ht
    rw [← htv] at hb hf
    obtain ⟨hb2, hf2⟩ := reachableFrom_preserves_cached d _ g hr _ _ b ff hb hf
    rw [format_cache_hit d ro2 g v2 fields b ff hne hnd hb2 hf2]
    refine ⟨?_, rfl, fun _ => ⟨ff, v2, rfl, hf, rfl⟩⟩
    intro c hc
    simp only [List.mem_cons, List.mem_singleton, List.not_mem_nil, or_false] at hc
    rcases hc with rfl | rfl <;> rfl

theorem format_compiles_once_witness :
    ((Format (specDeps exampleTypes) RangeOrder.insertion NewFormatter (some examplePerson)
        ["Name"]).out =
        .ret (some (.projection [("Name", .scalar "string" "A")])) none ∧
      ReachableFrom (specDeps exampleTypes)
        (Format (specDeps exampleTypes) RangeOrder.insertion NewFormatter (some examplePerson)
          ["Name"]).state exampleLater ∧
      ifaceType (specDeps exampleTypes) (some examplePerson2) =
        ifaceType (specDeps exampleTypes) (some examplePerson)) ∧
    ((∀ c ∈ (Format (specDeps exampleTypes) RangeOrder.reversed exampleLater
          (some examplePerson2) ["Name"]).calls, c.isCompile = false) ∧
      (Format (specDeps exampleTypes) RangeOrder.reversed exampleLater (some examplePerson2)
        ["Name"]).state = exampleLater ∧
      ∃ ff v2, some examplePerson2 = some v2 ∧
        (Format (specDeps exampleTypes) RangeOrder.insertion NewFormatter (some examplePerson)
          ["Name"]).state.lookup ((specDeps exampleTypes).typeOf v2) (cacheKey ["Name"]) =
          some ff ∧
        (Format (specDeps exampleTypes) RangeOrder.reversed exampleLater (some examplePerson2)
          ["Name"]).out = applyFormatter (specDeps exampleTypes) ff v2) :=
  have h := format_compiles_once (specDeps exampleTypes) RangeOrder.insertion NewFormatter
    (some examplePerson) ["Name"] (some (.projection [("Name", .scalar "string" "A")]))
    (by rfl) exampleLater (ReachableFrom.step _ _ _ _ ReachableFrom.refl)
    RangeOrder.reversed (some examplePerson2) (by rfl)
  ⟨⟨by rfl, ReachableFrom.step _ _ _ _ ReachableFrom.refl, by rfl⟩,
    h.1, h.2.1, h.2.2 (by decide)⟩

/-- C8 (counterexample): the duplicate-free field list `["a", "a,a"]` and its
reordering `["a,a", "a"]`, a different sequence, get the same cache key
`"a,a,a"`. -/
theorem cacheKey_reorder_collision :
    ["a", "a,a"].Nodup ∧ ["a,a", "a"].Perm ["a", "a,a"] ∧ ["a,a", "a"] ≠ ["a", "a,a"] ∧
      cacheKey ["a,a", "a"] = cacheKey ["a", "a,a"] := by
  refine ⟨by decide, by decide, by decide, by decide⟩

/-- C8 (amended): the cache key of a request is the field list joined with `","`
in its input order. For every duplicate-free field list none of whose paths
contains a comma, and every reordering of it that is a different sequence, the
two requests get different cache keys; after both calls succeed on the same
type, `formatters[t]` holds an entry under each of the two keys, each the
formatter that its call applied. -/
theorem cacheKey_order_sensitive {Ty V B F : Type} [DecidableEq Ty] (d : Deps Ty V B F)
    (l1 l2 : List String) (hcf : ∀ p ∈ l1, commaFree p) (hp : l2.Perm l1) (hne : l2 ≠ l1) :
    cacheKey l1 = stringsJoin l1 "," ∧ cacheKey l2 = stringsJoin l2 "," ∧
      cacheKey l1 ≠ cacheKey l2 ∧
      ∀ (ro1 ro2 : RangeOrder) (f : Formatter Ty B F) (v1 v2 : V) (r1 r2 : Option V),
        d.typeOf v2 = d.typeOf v1 →
        (Format d ro1 f (some v1) l1).out = .ret r1 none →
        (Format d ro2 (Format d ro1 f (some v1) l1).state (some v2) l2).out = .ret r2 none →
        ∃ ff1 ff2,
          (Format d ro2 (Format d ro1 f (some v1) l1).state (some v2) l2).state.lookup
              (d.typeOf v1) (cacheKey l1) = some ff1 ∧
            (Format d ro2 (Format d ro1 f (some v1) l1).state (some v2) l2).state.lookup
              (d.typeOf v1) (cacheKey l2) = some ff2 ∧
            (Format d ro1 f (some v1) l1).out = applyFormatter d ff1 v1 ∧
            (Format d ro2 (Format d ro1 f (some v1) l1).state (some v2) l2).out =
              applyFormatter d ff2 v2 := by
  have hne1 : l1 ≠ [] := by
    rintro rfl
    exact hne (List.Perm.eq_nil hp)
  have hne2 : l2 ≠ [] := by
    rintro rfl
    exact hne1 (List.Perm.eq_nil hp.symm)
  have hcf2 : ∀ p ∈ l2, commaFree p := fun p hp2 => hcf p (hp.mem_iff.mp hp2)
  have hkey : cacheKey l1 ≠ cacheKey l2 := fun hk =>
    hne (cacheKey_injective l1 l2 hcf hcf2 hne1 hne2 hk).symm
  refine ⟨rfl, rfl, hkey, ?_⟩
  intro ro1 ro2 f v1 v2 r1 r2 ht h1 h2
  obtain ⟨w1, b1, ff1, hw1, _, hb1, hf1, ho1⟩ := format_success_cached d ro1 f _ l1 r1 hne1 h1
  obtain ⟨w2, b2, ff2, hw2, _, _, hf2, ho2⟩ := format_success_cached d ro2 _ _ l2 r2 hne2 h2
  simp only [Option.some.injEq] at hw1 hw2
  subst hw1 hw2
  rw [ht] at hf2
  exact ⟨ff1, ff2, (format_preserves_cached d ro2 _ _ l2 _ _ b1 ff1 hb1 hf1).2, hf2, ho1, ho2⟩

theorem cacheKey_order_sensitive_witness :
    ((∀ p ∈ ["Name", "Age"], commaFree p) ∧ ["Age", "Name"].Perm ["Name", "Age"] ∧
      ["Age", "Name"] ≠ ["Name", "Age"]) ∧
    (cacheKey ["Name", "Age"] ≠ cacheKey ["Age", "Name"] ∧
      ∃ ff1 ff2,
        (Format (specDeps exampleTypes) RangeOrder.reversed
          (Format (specDeps exampleTypes) RangeOrder.insertion NewFormatter
            (some examplePerson) ["Name", "Age"]).state (some examplePerson2)
          ["Age", "Name"]).state.lookup ((specDeps exampleTypes).typeOf examplePerson)
            (cacheKey ["Name", "Age"]) = some ff1 ∧
          (Format (specDeps exampleTypes) RangeOrder.reversed
            (Format (specDeps exampleTypes) RangeOrder.insertion NewFormatter
              (some examplePerson) ["Name", "Age"]).state (some examplePerson2)
            ["Age", "Name"]).state.lookup ((specDeps exampleTypes).typeOf examplePerson)
            (cacheKey ["Age", "Name"]) = some ff2 ∧
          (Format (specDeps exampleTypes) RangeOrder.insertion NewFormatter
            (some examplePerson) ["Name", "Age"]).out =
            applyFormatter (specDeps exampleTypes) ff1 examplePerson ∧
          (Format (specDeps exampleTypes) RangeOrder.reversed
            (Format (specDeps exampleTypes) RangeOrder.insertion NewFormatter
              (some examplePerson) ["Name", "Age"]).state (some examplePerson2)
            ["Age", "Name"]).out = applyFormatter (specDeps exampleTypes) ff2 examplePerson2) :=
  have h := cacheKey_order_sensitive (specDeps exampleTypes) ["Name", "Age"] ["Age", "Name"]
    (by decide) (by decide) (by decide)
  ⟨⟨by decide, by decide, by decide⟩, h.2.2.1,
    h.2.2.2 RangeOrder.insertion RangeOrder.reversed NewFormatter examplePerson examplePerson2
      (some (.projection [("Name", .scalar "string" "A"), ("Age", .scalar "int" "5")]))
      (some (.projection [("Age", .scalar "int" "7"), ("Name", .scalar "string" "B")]))
      (by rfl) (by rfl) (by rfl)⟩

/-- C9 (failing input): `Format(nil, []string{"Name"})` does not return, in
any cache state and whatever `makeBuilder`, `build` and `format` do:
`reflect.ValueOf(nil)` is the zero `Value` and `v.Type()` panics on it (line 40),
before `makeBuilder` could report the unsupported value. -/
theorem format_nil_interface_panics {Ty V B F : Type} [DecidableEq Ty] (d : Deps Ty V B F)
    (ro : RangeOrder) (f : Formatter Ty B F) :
    (Format d ro f none ["Name"]).out = .panic .typeOfZeroValue ∧
      (Format (specDeps exampleTypes) RangeOrder.insertion NewFormatter none ["Name"]).out =
        .panic .typeOfZeroValue := by
  refine ⟨?_, by rfl⟩
  simp [Format, detectDuplicateFields_of_nodup ro ["Name"] (by decide), reflectValueOf]

/-- C11: for every cache state and every value of a type `t` without cached
builder: if `Format` calls `makeBuilder(t)` (it does so exactly when the field
list passed validation and `t` has no cached builder) and the call returns an
error, `Format` returns `(nil, that error)` right after that call, and the
`builders` and `formatters` maps are unchanged; after any further `Format`
calls, `t` still has no entry in either map, and a later call with a value of
type `t` (and a field list that passes validation) invokes `makeBuilder(t)`
again and returns its error again. -/
theorem format_makeBuilder_error_not_cached {Ty V B F : Type} [DecidableEq Ty]
    (d : Deps Ty V B F) (ro : RangeOrder) (f : Formatter Ty B F) (v : V)
    (fields : List String) (x : Option B) (e : GoError)
    (hcall : Call.makeBuilder (d.typeOf v) ∈ (Format d ro f (some v) fields).calls)
    (he : d.makeBuilder (d.typeOf v) = (x, some e)) :
    (fields ≠ [] ∧ fields.Nodup ∧ GoMap.index f.builders (d.typeOf v) = none) ∧
      (Format d ro f (some v) fields).out = .ret none (some e) ∧
      (Format d ro f (some v) fields).calls =
        [.detectDuplicateFields fields, .makeBuilder (d.typeOf v)] ∧
      (Format d ro f (some v) fields).state = f ∧
      ∀ g, ReachableFrom d (Format d ro f (some v) fields).state g →
        g.builders (d.typeOf v) = f.builders (d.typeOf v) ∧
        g.formatters (d.typeOf v) = f.formatters (d.typeOf v) ∧
        ∀ (ro2 : RangeOrder) (v2 : V) (fields2 : List String),
          d.typeOf v2 = d.typeOf v → fields2 ≠ [] → fields2.Nodup →
          (Format d ro2 g (some v2) fields2).calls =
            [.detectDuplicateFields fields2, .makeBuilder (d.typeOf v)] ∧
          (Format d ro2 g (some v2) fields2).out = .ret none (some e) := by
  obtain ⟨_, hne, hnd, hb⟩ := makeBuilder_called d ro f v fields _ hcall
  have hF : ∀ (ro1 : RangeOrder) (g : Formatter Ty B F) (w : V) (fs : List String),
      d.typeOf w = d.typeOf v → fs ≠ [] → fs.Nodup →
      GoMap.index g.builders (d.typeOf v) = none →
      Format d ro1 g (some w) fs =
        ⟨.ret none (some e), g, [.detectDuplicateFields fs, .makeBuilder (d.typeOf v)]⟩ := by
    intro ro1 g w fs hw h1 h2 h3
    rw [format_of_valid d ro1 g w fs h1 (detectDuplicateFields_of_nodup ro1 fs h2), hw]
    simp [h3, he]
  have h0 := hF ro f v fields rfl hne hnd hb
  refine ⟨⟨hne, hnd, hb⟩, by rw [h0], by rw [h0], by rw [h0], ?_⟩
  intro g hg
  rw [h0] at hg
  obtain ⟨h1, h2⟩ := reachableFrom_preserves_no_builder d f g hg _ x e hb he
  refine ⟨h1, h2, ?_⟩
  intro ro2 v2 fields2 ht2 hne2 hnd2
  have hb2 : GoMap.index g.builders (d.typeOf v) = none := by
    simpa [GoMap.index, h1] using hb
  rw [hF ro2 g v2 fields2 ht2 hne2 hnd2 hb2]
  exact ⟨rfl, rfl⟩

theorem format_makeBuilder_error_not_cached_witness :
    (Call.makeBuilder ((specDeps exampleTypes).typeOf (GoValue.scalar "int" "3")) ∈
        (Format (specDeps exampleTypes) RangeOrder.insertion NewFormatter
          (some (GoValue.scalar "int" "3")) ["Name"]).calls ∧
      (specDeps exampleTypes).makeBuilder
          ((specDeps exampleTypes).typeOf (GoValue.scalar "int" "3")) =
        (none, some "unsupported type: int")) ∧
    ((["Name"] ≠ [] ∧ ["Name"].Nodup ∧
        GoMap.index (NewFormatter : Formatter GoType builder formatter).builders
          ((specDeps exampleTypes).typeOf (GoValue.scalar "int" "3")) = none) ∧
      (Format (specDeps exampleTypes) RangeOrder.insertion NewFormatter
        (some (GoValue.scalar "int" "3")) ["Name"]).out =
        .ret none (some "unsupported type: int") ∧
      (Format (specDeps exampleTypes) RangeOrder.insertion NewFormatter
        (some (GoValue.scalar "int" "3")) ["Name"]).calls =
        [.detectDuplicateFields ["Name"],
          .makeBuilder ((specDeps exampleTypes).typeOf (GoValue.scalar "int" "3"))] ∧
      (Format (specDeps exampleTypes) RangeOrder.insertion NewFormatter
        (some (GoValue.scalar "int" "3")) ["Name"]).state = NewFormatter ∧
      exampleLater.builders ((specDeps exampleTypes).typeOf (GoValue.scalar "int" "3")) =
        (NewFormatter : Formatter GoType builder formatter).builders
          ((specDeps exampleTypes).typeOf (GoValue.scalar "int" "3")) ∧
      exampleLater.formatters ((specDeps exampleTypes).typeOf (GoValue.scalar "int" "3")) =
        (NewFormatter : Formatter GoType builder formatter).formatters
          ((specDeps exampleTypes).typeOf (GoValue.scalar "int" "3")) ∧
      (Format (specDeps exampleTypes) RangeOrder.reversed exampleLater
        (some (GoValue.scalar "int" "9")) ["Age", "Name"]).calls =
        [.detectDuplicateFields ["Age", "Name"],
          .makeBuilder ((specDeps exampleTypes).typeOf (GoValue.scalar "int" "3"))] ∧
      (Format (specDeps exampleTypes) RangeOrder.reversed exampleLater
        (some (GoValue.scalar "int" "9")) ["Age", "Name"]).out =
        .ret none (some "unsupported type: int")) :=
  have hcall : Call.makeBuilder ((specDeps exampleTypes).typeOf (GoValue.scalar "int" "3")) ∈
      (Format (specDeps exampleTypes) RangeOrder.insertion NewFormatter
        (some (GoValue.scalar "int" "3")) ["Name"]).calls :=
    List.mem_cons_of_mem _ (List.mem_cons_self _ _)
  have h := format_makeBuilder_error_not_cached (specDeps exampleTypes) RangeOrder.insertion
    NewFormatter (GoValue.scalar "int" "3") ["Name"] none "unsupported type: int" hcall
    (by rfl)
  have hg := h.2.2.2.2 exampleLater
    (ReachableFrom.step _ _ _ _ (ReachableFrom.step _ _ _ _ ReachableFrom.refl))
  have hl := hg.2.2 RangeOrder.reversed (GoValue.scalar "int" "9") ["Age", "Name"] (by rfl)
    (by decide) (by decide)
  ⟨⟨hcall, by rfl⟩, h.1, h.2.1, h.2.2.1, h.2.2.2.1, hg.1, hg.2.1, hl.1, hl.2⟩

/-- C13: the caches are insert-only. In every cache state reachable from
`NewFormatter` by `Format` calls, after every further `Format` call each cached
builder (`builders[t]`) and each cached formatter (`formatters[t][key]`) present
before the call is still present with the same value; and when the call
compiles the builder of a type `t` for the first time, `formatters[t]` is nil or
holds no key before the reset `formatters[t] = {}`, which therefore discards
nothing. -/
theorem format_insert_only {Ty V B F : Type} [DecidableEq Ty] (d : Deps Ty V B F)
    (ro : RangeOrder) (f : Formatter Ty B F) (hr : Reachable d f) (o : Option V)
    (fields : List String) :
    (∀ t b, GoMap.index f.builders t = some b →
        GoMap.index (Format d ro f o fields).state.builders t = some b) ∧
      (∀ t key ff, f.lookup t key = some ff →
        (Format d ro f o fields).state.lookup t key = some ff) ∧
      (∀ t, Call.makeBuilder t ∈ (Format d ro f o fields).calls →
        ∀ m, GoMap.index f.formatters t = some m → ∀ key, m key = none) := by
  have hs := resetSafe_reachable d f hr
  refine ⟨?_, ?_, ?_⟩
  · intro t b hb
    exact format_preserves_builder d ro f o fields t b hb
  · intro t key ff hf
    obtain ⟨b, hb⟩ := builder_of_lookup f hs t key ff hf
    exact (format_preserves_cached d ro f o fields t key b ff hb hf).2
  · intro t hcall m hm key
    cases o with
    | none =>
      exfalso
      by_cases hne : fields = []
      · subst hne
        simp [Format] at hcall
      · have hlen : fields.length ≠ 0 := fun h0 => hne (List.length_eq_zero.mp h0)
        cases hd : detectDuplicateFields ro fields <;>
          simp [Format, hlen, hd, reflectValueOf] at hcall
    | some v =>
      obtain ⟨h1, _, _, h4⟩ := makeBuilder_called d ro f v fields t hcall
      subst h1
      exact hs _ h4 m hm key

theorem format_insert_only_witness :
    Reachable (specDeps exampleTypes) exampleWarm ∧
      ((∀ t b, GoMap.index exampleWarm.builders t = some b →
          GoMap.index (Format (specDeps exampleTypes) RangeOrder.reversed exampleWarm
            (some exampleContact) ["Address.City"]).state.builders t = some b) ∧
        (∀ t key ff, exampleWarm.lookup t key = some ff →
          (Format (specDeps exampleTypes) RangeOrder.reversed exampleWarm
            (some exampleContact) ["Address.City"]).state.lookup t key = some ff) ∧
        (∀ t, Call.makeBuilder t ∈ (Format (specDeps exampleTypes) RangeOrder.reversed
            exampleWarm (some exampleContact) ["Address.City"]).calls →
          ∀ m, GoMap.index exampleWarm.formatters t = some m → ∀ key, m key = none)) ∧
      (exampleWarm.lookup (.struct "Person") "Name" =
          some (.mk (.struct "Person") [⟨"Name", "Name", .directCopy⟩]) ∧
        (Format (specDeps exampleTypes) RangeOrder.reversed exampleWarm
          (some exampleContact) ["Address.City"]).state.lookup (.struct "Person") "Name" =
          some (.mk (.struct "Person") [⟨"Name", "Name", .directCopy⟩])) :=
  have h := format_insert_only (specDeps exampleTypes) RangeOrder.reversed exampleWarm
    (ReachableFrom.step _ _ _ _ ReachableFrom.refl) (some exampleContact) ["Address.City"]
  ⟨ReachableFrom.step _ _ _ _ ReachableFrom.refl, h, by rfl,
    h.2.1 (.struct "Person") "Name" (.mk (.struct "Person") [⟨"Name", "Name", .directCopy⟩])
      (by rfl)⟩

/-- What a call of `Format` that returns tells about its stages: they are
recorded in stage order; a returned error is the error of the last stage that
ran, the stages before it having succeeded; without error every stage that ran
succeeded and the result is the value of `format` (or the input, for an empty
field list). -/
theorem format_returns_cases {Ty V B F : Type} [DecidableEq Ty] (d : Deps Ty V B F)
    (ro : RangeOrder) (f : Formatter Ty B F) (o : Option V) (fields : List String)
    (r : Option V) (err : Option GoError)
    (h : (Format d ro f o fields).out = .ret r err) :
    (((Format d ro f o fields).calls.map Call.stage).Pairwise (fun a b => a < b)) ∧
      (∀ e, err = some e → r = none ∧ ∃ pre c,
        (Format d ro f o fields).calls = pre ++ [c] ∧ c.err d ro = some e ∧
        ∀ c1 ∈ pre, c1.err d ro = none) ∧
      (err = none → (∀ c ∈ (Format d ro f o fields).calls, c.err d ro = none) ∧
        ((fields = [] ∧ r = o ∧ (Format d ro f o fields).calls = []) ∨
          ∃ ff v x, o = some v ∧
            (Format d ro f o fields).calls.getLast? = some (.format ff v) ∧
            d.format ff v = (some x, none) ∧ r = some x)) := by
  by_cases hne : fields = []
  · subst hne
    simp only [Format, List.length_nil, if_true, Outcome.ret.injEq] at h ⊢
    obtain ⟨h1, h2⟩ := h
    subst h1 h2
    simp
  have hlen : fields.length ≠ 0 := fun h0 => hne (List.length_eq_zero.mp h0)
  cases hd : detectDuplicateFields ro fields with
  | some e1 =>
    have hF : Format d ro f o fields =
        ⟨.ret none (some e1), f, [.detectDuplicateFields fields]⟩ := by
      simp [Format, hlen, hd]
    rw [hF] at h ⊢
    simp only [Outcome.ret.injEq] at h
    obtain ⟨h1, h2⟩ := h
    subst h1 h2
    refine ⟨by simp, ?_, by simp⟩
    intro e he
    simp only [Option.some.injEq] at he
    subst he
    exact ⟨rfl, [], .detectDuplicateFields fields, rfl, by simp [Call.err, hd], by simp⟩
  | none =>
    cases o with
    | none => simp [Format, hlen, hd, reflectValueOf] at h
    | some v =>
      have hF := format_of_valid d ro f v fields hne hd
      have hde : (Call.detectDuplicateFields fields : Call Ty V B F).err d ro = none := by
        simp [Call.err, hd]
      cases hb : GoMap.index f.builders (d.typeOf v) with
      | some b =>
        simp only [hb] at hF
        rw [hF] at h ⊢
        obtain ⟨h1, h2, h3⟩ := formatWith_returns d ro f v (d.typeOf v) (some b) fields
          [.detectDuplicateFields fields] r err (by simp) (by simp [Call.stage])
          (by simpa using hde) h
        refine ⟨h1, h2, ?_⟩
        intro he
        obtain ⟨h4, ff, x, h5, h6, h7⟩ := h3 he
        exact ⟨h4, Or.inr ⟨ff, v, x, rfl, h5, h6, h7⟩⟩
      | none =>
        rcases hm : d.makeBuilder (d.typeOf v) with ⟨b, _ | e1⟩
        · simp only [hb, hm] at hF
          rw [hF] at h ⊢
          have hme : (Call.makeBuilder (d.typeOf v) : Call Ty V B F).err d ro = none := by
            simp [Call.err, hm]
          obtain ⟨h1, h2, h3⟩ := formatWith_returns d ro (f.cacheBuilder (d.typeOf v) b) v
            (d.typeOf v) b fields [.detectDuplicateFields fields, .makeBuilder (d.typeOf v)]
            r err (by simp [Call.stage]) (by simp [Call.stage])
            (by
              intro c hc
              simp only [List.mem_cons, List.mem_singleton, List.not_mem_nil,
                or_false] at hc
              rcases hc with rfl | rfl
              · exact hde
              · exact hme) h
          refine ⟨h1, h2, ?_⟩
          intro he
          obtain ⟨h4, ff, x, h5, h6, h7⟩ := h3 he
          exact ⟨h4, Or.inr ⟨ff, v, x, rfl, h5, h6, h7⟩⟩
        · simp only [hb, hm] at hF
          rw [hF] at h ⊢
          simp only [Outcome.ret.injEq] at h
          obtain ⟨h1, h2⟩ := h
          subst h1 h2
          refine ⟨by simp [Call.stage], ?_, by simp⟩
          intro e he
          simp only [Option.some.injEq] at he
          subst he
          refine ⟨rfl, [.detectDuplicateFields fields], .makeBuilder (d.typeOf v), rfl,
            by simp [Call.err, hm], ?_⟩
          intro c hc
          simp only [List.mem_singleton] at hc
          subst hc
          exact hde

/-- In a reachable state, on a non-nil value and a field list that passes
validation, with the builder and the formatter that `Format` uses, the outcome
of `Format` is the outcome of applying that formatter. -/
theorem format_resolved {Ty V B F : Type} [DecidableEq Ty] (d : Deps Ty V B F)
    (ro : RangeOrder) (f : Formatter Ty B F) (hr : Reachable d f) (v : V)
    (fields : List String) (b : B) (ff : F) (hne : fields ≠ []) (hnd : fields.Nodup)
    (hb : BuilderFor d f (d.typeOf v) b) (hf : FormatterFor d f (d.typeOf v) b fields ff) :
    (Format d ro f (some v) fields).out = applyFormatter d ff v := by
  obtain ⟨_, hs2, _⟩ := cacheSound_reachable d f hr
  have hrs := resetSafe_reachable d f hr
  rw [format_of_valid d ro f v fields hne (detectDuplicateFields_of_nodup ro fields hnd)]
  rcases hb with hb | ⟨hb, hmk⟩
  · simp only [hb]
    rcases hf with hl | ⟨hl, hbuild⟩
    · simp [formatWith, hl]
    · obtain ⟨m, hm⟩ := hs2 _ b hb
      rw [formatWith_miss d f v (d.typeOf v) b fields _ m hl hm, hbuild]
  · simp only [hb, hmk]
    rcases hf with hl | ⟨_, hbuild⟩
    · obtain ⟨b1, hb1⟩ := builder_of_lookup f hrs _ _ ff hl
      rw [hb] at hb1
      simp at hb1
    · rw [formatWith_miss d _ v (d.typeOf v) b fields _ GoMap.empty
        (lookup_cacheBuilder_same f _ _ _) (index_cacheBuilder_formatters f _ _), hbuild]

/-- When `makeBuilder`, `build` and `format` never return a nil result with a
nil error, `Format` returns (it does not panic) on every non-nil value in every
reachable state. -/
theorem format_total {Ty V B F : Type} [DecidableEq Ty] (d : Deps Ty V B F)
    (ro : RangeOrder) (f : Formatter Ty B F) (hr : Reachable d f) (v : V)
    (fields : List String)
    (hmb : ∀ t b, d.makeBuilder t = (b, none) → b ≠ none)
    (hbd : ∀ b fs p x, d.build b fs p = (x, none) → x ≠ none)
    (hfm : ∀ ff w x, d.format ff w = (x, none) → x ≠ none) :
    ∃ r err, (Format d ro f (some v) fields).out = .ret r err := by
  have happ : ∀ ff, ∃ r err, applyFormatter d ff v = .ret r err := by
    intro ff
    rcases hfmt : d.format ff v with ⟨x, _ | e⟩
    · cases x with
      | none => exact absurd rfl (hfm ff v none hfmt)
      | some y => exact ⟨some y, none, by simp [applyFormatter, hfmt]⟩
    · exact ⟨none, some e, by simp [applyFormatter, hfmt]⟩
  by_cases hne : fields = []
  · subst hne
    exact ⟨some v, none, by simp [Format]⟩
  have hlen : fields.length ≠ 0 := fun h0 => hne (List.length_eq_zero.mp h0)
  cases hd : detectDuplicateFields ro fields with
  | some e => exact ⟨none, some e, by simp [Format, hlen, hd]⟩
  | none =>
    have hnd := nodup_of_detect_none ro fields hd
    have hres : ∀ b, BuilderFor d f (d.typeOf v) b →
        ∃ r err, (Format d ro f (some v) fields).out = .ret r err := by
      intro b hb
      cases hl : f.lookup (d.typeOf v) (cacheKey fields) with
      | some ff =>
        rw [format_resolved d ro f hr v fields b ff hne hnd hb (Or.inl hl)]
        exact happ ff
      | none =>
        rcases hbuild : d.build b fields "" with ⟨x, _ | e⟩
        · cases x with
          | none => exact absurd rfl (hbd b fields "" none hbuild)
          | some ff =>
            rw [format_resolved d ro f hr v fields b ff hne hnd hb (Or.inr ⟨hl, hbuild⟩)]
            exact happ ff
        · refine ⟨none, some e, ?_⟩
          rw [format_of_valid d ro f v fields hne hd]
          rcases hb with hb | ⟨hb, hmk⟩
          · simp [hb, formatWith, hl, hbuild]
          · simp [hb, hmk, formatWith, lookup_cacheBuilder_same, hbuild]
    cases hb : GoMap.index f.builders (d.typeOf v) with
    | some b => exact hres b (Or.inl hb)
    | none =>
      rcases hmk : d.makeBuilder (d.typeOf v) with ⟨x, _ | e⟩
      · cases x with
        | none => exact absurd rfl (hmb _ none hmk)
        | some b => exact hres b (Or.inr ⟨hb, hmk⟩)
      · refine ⟨none, some e, ?_⟩
        rw [format_of_valid d ro f v fields hne hd]
        simp [hb, hmk]

/-- C14: the stages that a call of `Format` runs are recorded in the order
`detectDuplicateFields`, `makeBuilder`, `build`, `format`, each at most once.
Whenever `Format` returns a non-nil error, the result is nil and the error is
the very error returned by the last stage that ran, all stages before it having
succeeded: the first failing stage. Whenever it returns a nil error, every
stage that ran succeeded and, unless the field list is empty, the result is the
value that `format` produced. Conversely `Format` does return in these cases:
the first stage that fails makes `Format` return `(nil, its error)`; and when
all stages succeed (validation passes, the builder and the formatter are
cached or compiled with a nil error and a non-nil result, and `format` returns
a valid value with a nil error, in a cache state reachable from `NewFormatter`)
`Format` returns `(that value, nil)`. With `makeBuilder`, `build` and `format`
that never return a nil result with a nil error, `Format` returns on every
non-nil value in every reachable state. -/
theorem format_returns_first_error {Ty V B F : Type} [DecidableEq Ty] (d : Deps Ty V B F)
    (ro : RangeOrder) (f : Formatter Ty B F) (o : Option V) (fields : List String) :
    (∀ r err, (Format d ro f o fields).out = .ret r err →
      (((Format d ro f o fields).calls.map Call.stage).Pairwise (fun a b => a < b)) ∧
        (∀ e, err = some e → r = none ∧ ∃ pre c,
          (Format d ro f o fields).calls = pre ++ [c] ∧ c.err d ro = some e ∧
          ∀ c1 ∈ pre, c1.err d ro = none) ∧
        (err = none → (∀ c ∈ (Format d ro f o fields).calls, c.err d ro = none) ∧
          ((fields = [] ∧ r = o ∧ (Format d ro f o fields).calls = []) ∨
            ∃ ff v x, o = some v ∧
              (Format d ro f o fields).calls.getLast? = some (.format ff v) ∧
              d.format ff v = (some x, none) ∧ r = some x))) ∧
      (∀ e, fields ≠ [] → detectDuplicateFields ro fields = some e →
        (Format d ro f o fields).out = .ret none (some e)) ∧
      (∀ v x e, o = some v → fields ≠ [] → fields.Nodup →
        GoMap.index f.builders (d.typeOf v) = none →
        d.makeBuilder (d.typeOf v) = (x, some e) →
        (Format d ro f o fields).out = .ret none (some e)) ∧
      (∀ v b x e, o = some v → fields ≠ [] → fields.Nodup →
        BuilderFor d f (d.typeOf v) b → f.lookup (d.typeOf v) (cacheKey fields) = none →
        d.build b fields "" = (x, some e) →
        (Format d ro f o fields).out = .ret none (some e)) ∧
      (∀ v b ff x e, Reachable d f → o = some v → fields ≠ [] → fields.Nodup →
        BuilderFor d f (d.typeOf v) b → FormatterFor d f (d.typeOf v) b fields ff →
        d.format ff v = (x, some e) →
        (Format d ro f o fields).out = .ret none (some e)) ∧
      (∀ v b ff x, Reachable d f → o = some v → fields ≠ [] → fields.Nodup →
        BuilderFor d f (d.typeOf v) b → FormatterFor d f (d.typeOf v) b fields ff →
        d.format ff v = (some x, none) →
        (Format d ro f o fields).out = .ret (some x) none) ∧
      (∀ v, Reachable d f → o = some v →
        (∀ t b, d.makeBuilder t = (b, none) → b ≠ none) →
        (∀ b fs p x, d.build b fs p = (x, none) → x ≠ none) →
        (∀ ff w x, d.format ff w = (x, none) → x ≠ none) →
        ∃ r err, (Format d ro f o fields).out = .ret r err) := by
  refine ⟨fun r err h => format_returns_cases d ro f o fields r err h, ?_, ?_, ?_, ?_, ?_,
    ?_⟩
  · intro e hne hd
    have hlen : fields.length ≠ 0 := fun h0 => hne (List.length_eq_zero.mp h0)
    simp [Format, hlen, hd]
  · intro v x e ho hne hnd hb hmk
    subst ho
    rw [format_of_valid d ro f v fields hne (detectDuplicateFields_of_nodup ro fields hnd)]
    simp [hb, hmk]
  · intro v b x e ho hne hnd hb hl hbuild
    subst ho
    rw [format_of_valid d ro f v fields hne (detectDuplicateFields_of_nodup ro fields hnd)]
    rcases hb with hb | ⟨hb, hmk⟩
    · simp [hb, formatWith, hl, hbuild]
    · simp [hb, hmk, formatWith, lookup_cacheBuilder_same, hbuild]
  · intro v b ff x e hr ho hne hnd hb hf hfmt
    subst ho
    rw [format_resolved d ro f hr v fields b ff hne hnd hb hf]
    simp [applyFormatter, hfmt]
  · intro v b ff x hr ho hne hnd hb hf hfmt
    subst ho
    rw [format_resolved d ro f hr v fields b ff hne hnd hb hf]
    simp [applyFormatter, hfmt]
  · intro v hr ho hmb hbd hfm
    subst ho
    exact format_total d ro f hr v fields hmb hbd hfm

theorem format_returns_first_error_witness :
    ((Format (specDeps exampleTypes) RangeOrder.insertion NewFormatter (some examplePerson)
          ["Nope"]).out = .ret none (some "field not found: Nope in type Person") ∧
      (Reachable (specDeps exampleTypes) exampleWarm ∧ ["Name"] ≠ [] ∧ ["Name"].Nodup ∧
        BuilderFor (specDeps exampleTypes) exampleWarm
          ((specDeps exampleTypes).typeOf examplePerson2)
          ⟨.struct "Person", describe (structFields exampleTypes "Person")⟩ ∧
        FormatterFor (specDeps exampleTypes) exampleWarm
          ((specDeps exampleTypes).typeOf examplePerson2)
          ⟨.struct "Person", describe (structFields exampleTypes "Person")⟩ ["Name"]
          (.mk (.struct "Person") [⟨"Name", "Name", .directCopy⟩]) ∧
        (specDeps exampleTypes).format (.mk (.struct "Person") [⟨"Name", "Name", .directCopy⟩])
            examplePerson2 =
          (some (.projection [("Name", .scalar "string" "B")]), none)) ∧
      (["Nope"] ≠ [] ∧ ["Nope"].Nodup ∧
        BuilderFor (specDeps exampleTypes) exampleWarm
          ((specDeps exampleTypes).typeOf examplePerson2)
          ⟨.struct "Person", describe (structFields exampleTypes "Person")⟩ ∧
        exampleWarm.lookup ((specDeps exampleTypes).typeOf examplePerson2)
          (cacheKey ["Nope"]) = none ∧
        (specDeps exampleTypes).build
            ⟨.struct "Person", describe (structFields exampleTypes "Person")⟩ ["Nope"] "" =
          (none, some "field not found: Nope in type Person"))) ∧
    (((none : Option GoValue) = none ∧ ∃ pre c,
        (Format (specDeps exampleTypes) RangeOrder.insertion NewFormatter (some examplePerson)
          ["Nope"]).calls = pre ++ [c] ∧
        c.err (specDeps exampleTypes) RangeOrder.insertion =
          some "field not found: Nope in type Person" ∧
        ∀ c1 ∈ pre, c1.err (specDeps exampleTypes) RangeOrder.insertion = none) ∧
      (Format (specDeps exampleTypes) RangeOrder.insertion exampleWarm (some examplePerson2)
        ["Name"]).out = .ret (some (.projection [("Name", .scalar "string" "B")])) none ∧
      (Format (specDeps exampleTypes) RangeOrder.insertion exampleWarm (some examplePerson2)
        ["Nope"]).out = .ret none (some "field not found: Nope in type Person") ∧
      ∃ r err, (Format (specDeps exampleTypes) RangeOrder.insertion exampleWarm
        (some examplePerson2) ["Name"]).out = .ret r err) :=
  have hD := (format_returns_first_error (specDeps exampleTypes) RangeOrder.insertion
    exampleWarm (some examplePerson2) ["Name"]).2.2.2.2.2.2 examplePerson2
    (ReachableFrom.step _ _ _ _ ReachableFrom.refl) rfl (makeBuilder_non_nil exampleTypes)
    (build_non_nil exampleTypes) (format_non_nil exampleTypes)
  have hA := (format_returns_first_error (specDeps exampleTypes) RangeOrder.insertion
    NewFormatter (some examplePerson) ["Nope"]).1 none
    (some "field not found: Nope in type Person") (by rfl)
  have hC := (format_returns_first_error (specDeps exampleTypes) RangeOrder.insertion
    exampleWarm (some examplePerson2) ["Name"]).2.2.2.2.2.1 examplePerson2
    ⟨.struct "Person", describe (structFields exampleTypes "Person")⟩
    (.mk (.struct "Person") [⟨"Name", "Name", .directCopy⟩])
    (.projection [("Name", .scalar "string" "B")])
    (ReachableFrom.step _ _ _ _ ReachableFrom.refl) rfl (by decide) (by decide)
    (Or.inl (by rfl)) (Or.inl (by rfl)) (by rfl)
  have hB := (format_returns_first_error (specDeps exampleTypes) RangeOrder.insertion
    exampleWarm (some examplePerson2) ["Nope"]).2.2.2.1 examplePerson2
    ⟨.struct "Person", describe (structFields exampleTypes "Person")⟩ none
    "field not found: Nope in type Person" rfl (by decide) (by decide) (Or.inl (by rfl))
    (by rfl) (by rfl)
  ⟨⟨by rfl, ⟨ReachableFrom.step _ _ _ _ ReachableFrom.refl, by decide, by decide,
      Or.inl (by rfl), Or.inl (by rfl), by rfl⟩,
      by decide, by decide, Or.inl (by rfl), by rfl, by rfl⟩,
    hA.2.1 _ rfl, hC, hB, hD⟩

/-- C15 (counterexample): with a deterministic `makeBuilder`, `build` and
`format`, in the cache state reached from `NewFormatter` by
`Format(o, ["a", "a,a"])`, the call `Format(o, ["a,a", "a"])` on a non-empty
duplicate-free field list returns the value of the formatter built for
`["a", "a,a"]`, found under the shared key `"a,a,a"`, not what the uncached
pipeline returns for `["a,a", "a"]`. -/
theorem format_not_transparent :
    Reachable echoDeps
        (Format echoDeps RangeOrder.insertion NewFormatter (some []) ["a", "a,a"]).state ∧
      ["a,a", "a"] ≠ [] ∧ ["a,a", "a"].Nodup ∧
      (Format echoDeps RangeOrder.insertion
        (Format echoDeps RangeOrder.insertion NewFormatter (some []) ["a", "a,a"]).state
        (some []) ["a,a", "a"]).out = .ret (some ["a", "a,a"]) none ∧
      uncached echoDeps (some []) ["a,a", "a"] = .ret (some ["a,a", "a"]) none ∧
      (Format echoDeps RangeOrder.insertion
        (Format echoDeps RangeOrder.insertion NewFormatter (some []) ["a", "a,a"]).state
        (some []) ["a,a", "a"]).out ≠ uncached echoDeps (some []) ["a,a", "a"] := by
  refine ⟨ReachableFrom.step _ _ _ _ ReachableFrom.refl, by decide, by decide, by rfl, by rfl,
    ?_⟩
  have h1 : (Format echoDeps RangeOrder.insertion
      (Format echoDeps RangeOrder.insertion NewFormatter (some []) ["a", "a,a"]).state
      (some []) ["a,a", "a"]).out = .ret (some ["a", "a,a"]) none := by rfl
  have h2 : uncached echoDeps (some []) ["a,a", "a"] = .ret (some ["a,a", "a"]) none := by rfl
  rw [h1, h2]
  decide

/-- C15 (amended): for `makeBuilder`, `build` and `format` deterministic
functions, in every cache state reachable from `NewFormatter` by `Format` calls
whose field paths contain no comma, `Format(o, fields)` for a non-empty
duplicate-free field list whose paths contain no comma returns the same result
and error (or ends in the same panic) as the uncached pipeline
`makeBuilder(typeOf o)`, `build(fields, "")`, `format(o)`; and a formatter found
under the key `strings.Join(fields, ",")` is the one that `build` returns for
this field list. -/
theorem format_transparent {Ty V B F : Type} [DecidableEq Ty] (d : Deps Ty V B F)
    (ro : RangeOrder) (f : Formatter Ty B F) (hr : ReachableCommaFree d f) (o : Option V)
    (fields : List String) (hne : fields ≠ []) (hnd : fields.Nodup)
    (hcf : ∀ p ∈ fields, commaFree p) :
    (Format d ro f o fields).out = uncached d o fields ∧
      ∀ v ff, o = some v → f.lookup (d.typeOf v) (stringsJoin fields ",") = some ff →
        ∃ b, d.makeBuilder (d.typeOf v) = (some b, none) ∧
          d.build b fields "" = (some ff, none) := by
  have hcached : ∀ v ff, f.lookup (d.typeOf v) (cacheKey fields) = some ff →
      ∃ b, GoMap.index f.builders (d.typeOf v) = some b ∧
        d.makeBuilder (d.typeOf v) = (some b, none) ∧
        d.build b fields "" = (some ff, none) := by
    intro v ff hl
    obtain ⟨b, fields1, h1, h2, h3, h4, h5⟩ := commaFreeCached_reachable d f hr _ _ ff hl
    have heq : fields1 = fields := cacheKey_injective fields1 fields h2 hcf h1 hne h3
    subst heq
    exact ⟨b, h4, (cacheSound_reachable d f (reachable_of_commaFree d f hr)).1 _ b h4, h5⟩
  refine ⟨?_, ?_⟩
  · have hlen : fields.length ≠ 0 := fun h0 => hne (List.length_eq_zero.mp h0)
    have hd := detectDuplicateFields_of_nodup ro fields hnd
    cases o with
    | none => simp [Format, hlen, hd, reflectValueOf, uncached]
    | some v =>
      obtain ⟨hs1, hs2, _⟩ := cacheSound_reachable d f (reachable_of_commaFree d f hr)
      rw [format_of_valid d ro f v fields hne hd]
      cases hb : GoMap.index f.builders (d.typeOf v) with
      | some b =>
        have hmk := hs1 _ b hb
        obtain ⟨m, hm⟩ := hs2 _ b hb
        simp only [uncached, reflectValueOf, hmk]
        cases hl : f.lookup (d.typeOf v) (cacheKey fields) with
        | some ff =>
          obtain ⟨b1, h1, _, h3⟩ := hcached v ff hl
          rw [hb] at h1
          simp only [Option.some.injEq] at h1
          subst h1
          simp [formatWith, hl, h3]
        | none => exact formatWith_miss d f v _ b fields _ m hl hm
      | none =>
        rcases hmk : d.makeBuilder (d.typeOf v) with ⟨b, _ | e1⟩
        · cases b with
          | none => simp [uncached, reflectValueOf, hmk, formatWith, lookup_cacheBuilder_same]
          | some b1 =>
            simp only [uncached, reflectValueOf, hmk]
            exact formatWith_miss d _ v _ b1 fields _ GoMap.empty
              (lookup_cacheBuilder_same f _ _ _) (index_cacheBuilder_formatters f _ _)
        · simp [uncached, reflectValueOf, hmk]
  · intro v ff _ hl
    obtain ⟨b, _, h2, h3⟩ := hcached v ff hl
    exact ⟨b, h2, h3⟩

theorem format_transparent_witness :
    (ReachableCommaFree (specDeps exampleTypes) exampleLater ∧
      ["Address.City", "Name"] ≠ [] ∧ ["Address.City", "Name"].Nodup ∧
      ∀ p ∈ ["Address.City", "Name"], commaFree p) ∧
    ((Format (specDeps exampleTypes) RangeOrder.reversed exampleLater (some exampleContact)
        ["Address.City", "Name"]).out =
        uncached (specDeps exampleTypes) (some exampleContact) ["Address.City", "Name"] ∧
      ∀ v ff, some exampleContact = some v →
        exampleLater.lookup ((specDeps exampleTypes).typeOf v)
          (stringsJoin ["Address.City", "Name"] ",") = some ff →
        ∃ b, (specDeps exampleTypes).makeBuilder ((specDeps exampleTypes).typeOf v) =
            (some b, none) ∧
          (specDeps exampleTypes).build b ["Address.City", "Name"] "" = (some ff, none)) :=
  ⟨⟨ReachableCommaFree.step _ _ _ _
        (ReachableCommaFree.step _ _ _ _ ReachableCommaFree.init (by decide)) (by decide),
      by decide, by decide, by decide⟩,
    format_transparent (specDeps exampleTypes) RangeOrder.reversed exampleLater
      (ReachableCommaFree.step _ _ _ _
        (ReachableCommaFree.step _ _ _ _ ReachableCommaFree.init (by decide)) (by decide))
      (some exampleContact) ["Address.City", "Name"] (by decide) (by decide) (by decide)⟩

/-- C16: assuming `makeBuilder` returns a non-nil builder on success, in every
state reachable from `NewFormatter` by `Format` calls a type has an entry in
`builders` if and only if it has a non-nil inner map in `formatters`, and the
entry is a non-nil builder; hence no call of `Format` from such a state assigns
into a nil map at the formatter insert `formatters[t][key] = ff`. -/
theorem builders_iff_inner_map {Ty V B F : Type} [DecidableEq Ty] (d : Deps Ty V B F)
    (hnn : ∀ t b, d.makeBuilder t = (b, none) → b ≠ none)
    (f : Formatter Ty B F) (hr : Reachable d f) :
    (∀ t, f.builders t ≠ none ↔ ∃ m, GoMap.index f.formatters t = some m) ∧
      (∀ t, f.builders t ≠ none → ∃ b, GoMap.index f.builders t = some b) ∧
      ∀ (ro : RangeOrder) (o : Option V) (fields : List String),
        (Format d ro f o fields).out ≠ .panic .assignToNilMap := by
  have hs := buildersPaired_reachable d hnn f hr
  have hidx : ∀ t, f.builders t ≠ none → ∃ b, GoMap.index f.builders t = some b := by
    intro t ht
    have h2 := (hs t).2
    cases hb : f.builders t with
    | none => exact absurd hb ht
    | some x =>
      cases x with
      | none => exact absurd hb h2
      | some b => exact ⟨b, by simp [GoMap.index, hb]⟩
  refine ⟨fun t => (hs t).1, hidx, ?_⟩
  intro ro o fields
  by_cases hne : fields = []
  · subst hne
    simp [Format]
  have hlen : fields.length ≠ 0 := fun h0 => hne (List.length_eq_zero.mp h0)
  cases hd : detectDuplicateFields ro fields with
  | some e1 => simp [Format, hlen, hd]
  | none =>
    cases o with
    | none => simp [Format, hlen, hd, reflectValueOf]
    | some v =>
      rw [format_of_valid d ro f v fields hne hd]
      cases hb : GoMap.index f.builders (d.typeOf v) with
      | some b =>
        have hpres : f.builders (d.typeOf v) ≠ none := by
          intro hc
          simp [GoMap.index, hc] at hb
        obtain ⟨m, hm⟩ := ((hs _).1).mp hpres
        exact formatWith_not_assign d f v _ _ fields _ m hm
      | none =>
        rcases hmk : d.makeBuilder (d.typeOf v) with ⟨b, _ | e1⟩
        · exact formatWith_not_assign d _ v _ _ fields _ GoMap.empty
            (index_cacheBuilder_formatters f _ _)
        · simp

theorem builders_iff_inner_map_witness :
    ((∀ t b, (specDeps exampleTypes).makeBuilder t = (b, none) → b ≠ none) ∧
      Reachable (specDeps exampleTypes) exampleLater) ∧
    ((∀ t, exampleLater.builders t ≠ none ↔
        ∃ m, GoMap.index exampleLater.formatters t = some m) ∧
      (∀ t, exampleLater.builders t ≠ none → ∃ b, GoMap.index exampleLater.builders t = some b) ∧
      ∀ (ro : RangeOrder) (o : Option GoValue) (fields : List String),
        (Format (specDeps exampleTypes) ro exampleLater o fields).out ≠
          .panic .assignToNilMap) :=
  ⟨⟨makeBuilder_non_nil exampleTypes,
      ReachableFrom.step _ _ _ _ (ReachableFrom.step _ _ _ _ ReachableFrom.refl)⟩,
    builders_iff_inner_map (specDeps exampleTypes) (makeBuilder_non_nil exampleTypes)
      exampleLater
      (ReachableFrom.step _ _ _ _ (ReachableFrom.step _ _ _ _ ReachableFrom.refl))⟩

/-- C17: the cache key is injective on well-formed requests: for two non-empty
field lists none of whose paths contains a comma,
`strings.Join(fields1, ",") = strings.Join(fields2, ",")` implies
`fields1 = fields2`; so two different such requests use different keys, and
caching the formatter of one does not change what the other finds in the cache. -/
theorem join_injective_comma_free (fields1 fields2 : List String) (hne1 : fields1 ≠ [])
    (hne2 : fields2 ≠ []) (h1 : ∀ p ∈ fields1, commaFree p)
    (h2 : ∀ p ∈ fields2, commaFree p) :
    (stringsJoin fields1 "," = stringsJoin fields2 "," → fields1 = fields2) ∧
      (fields1 ≠ fields2 → cacheKey fields1 ≠ cacheKey fields2 ∧
        ∀ {Ty B F : Type} [DecidableEq Ty] (f : Formatter Ty B F) (t : Ty)
          (m : GoMap String (Option F)) (x : Option F),
          GoMap.index f.formatters t = some m →
          (f.cacheFormatter t m (cacheKey fields1) x).lookup t (cacheKey fields2) =
            f.lookup t (cacheKey fields2)) := by
  have hinj : cacheKey fields1 = cacheKey fields2 → fields1 = fields2 :=
    cacheKey_injective fields1 fields2 h1 h2 hne1 hne2
  refine ⟨hinj, ?_⟩
  intro hdiff
  have hk : cacheKey fields1 ≠ cacheKey fields2 := fun hc => hdiff (hinj hc)
  refine ⟨hk, ?_⟩
  intro Ty B F _ f t m x hm
  exact lookup_cacheFormatter_other f t m _ x t _ hm (Or.inr (fun hc => hk hc.symm))

theorem join_injective_comma_free_witness :
    (["Name", "Age"] ≠ [] ∧ ["Age", "Name"] ≠ [] ∧ (∀ p ∈ ["Name", "Age"], commaFree p) ∧
      ∀ p ∈ ["Age", "Name"], commaFree p) ∧
    ((stringsJoin ["Name", "Age"] "," = stringsJoin ["Age", "Name"] "," →
        ["Name", "Age"] = ["Age", "Name"]) ∧
      cacheKey ["Name", "Age"] ≠ cacheKey ["Age", "Name"] ∧
      (exampleWarm.cacheFormatter (.struct "Person")
          ((GoMap.empty : GoMap String (Option formatter)).set "Name"
            (some (.mk (.struct "Person") [⟨"Name", "Name", .directCopy⟩])))
          (cacheKey ["Name", "Age"])
          (some (.mk (.struct "Person")
            [⟨"Name", "Name", .directCopy⟩, ⟨"Age", "Age", .directCopy⟩]))).lookup
          (.struct "Person") (cacheKey ["Age", "Name"]) =
        exampleWarm.lookup (.struct "Person") (cacheKey ["Age", "Name"])) :=
  have h := join_injective_comma_free ["Name", "Age"] ["Age", "Name"] (by decide) (by decide)
    (by decide) (by decide)
  ⟨⟨by decide, by decide, by decide, by decide⟩, h.1, (h.2 (by decide)).1,
    (h.2 (by decide)).2 exampleWarm (.struct "Person")
      ((GoMap.empty : GoMap String (Option formatter)).set "Name"
        (some (.mk (.struct "Person") [⟨"Name", "Name", .directCopy⟩])))
      (some (.mk (.struct "Person")
        [⟨"Name", "Name", .directCopy⟩, ⟨"Age", "Age", .directCopy⟩])) (by rfl)⟩

end Dynjson
